import Mathlib

/-!
Verification of the payloadcms-client content-ingestion pipeline.

This file gives a shallow embedding, in Lean 4, of the parts of the
repository that the verified properties talk about:

* the slug deriver (payloadcms_client/articles.py, slugify and
  the per-path-component variant),
* the category resolution and upsert engine (articles.py
  ensure_categories together with payload_client.py upsert_by_field,
  find_first_by_field, create_document, update_document),
* featured-image media resolution (articles.py ensure_featured_image),
* the front-matter parser (payloadcms_client/file_parser.py),
* the HTML-to-Lexical converter (payloadcms_client/html_to_lexical.py),
* the bulk deletion sweeper (clean_payloadcms.py delete_all_documents).

Conventions used throughout the embedding:

* Python strings are Lean String / List Char; Python dicts keyed by
  strings are association lists (Assoc) with insertion-order semantics:
  setting an existing key updates it in place, setting a new key appends.
* The remote document store is an external collaborator of the code; it
  is modelled by an explicit state (list of documents plus an id counter)
  and the REST client operations record a trace of the calls they issue,
  so call-count properties can be stated.
* Filesystem access (resolving a featured image to a local file) and the
  YAML loader are external dependencies; they enter the embedding as
  function parameters, so theorems quantify over their behaviour.
* unicodedata.normalize("NFKD", .) is an external library function; it
  is a parameter (nfkd) of the slug deriver.  The only fact about it any
  theorem needs is that it fixes strings that are already pure-ASCII
  slugs, which is a documented property of NFKD normalization.
* Fallible Python code (raise / except) is embedded with Except.
-/

namespace PayloadCms

/-! ## Character helpers shared by the slug deriver -/

/-- Characters allowed by the slug regular expression character class
a-z, 0-9 and the hyphen, written with their ASCII code points
(97..122 for a-z, 48..57 for 0-9, 45 for the hyphen).  This is the
complement of the pattern of SLUG_INVALID_RE in articles.py. -/
def slugChar (c : Char) : Bool :=
  (97 ≤ c.toNat && c.toNat ≤ 122) || (48 ≤ c.toNat && c.toNat ≤ 57) || c.toNat == 45

/-- Python str.lower restricted to ASCII input (the slug deriver only
lowercases after the ascii-encode step, so only A-Z, code points
65..90, are affected; they map to code points 97..122). -/
def asciiLower (c : Char) : Char :=
  if 65 ≤ c.toNat && c.toNat ≤ 90 then Char.ofNat (c.toNat + 32) else c

/-- Replace every maximal run of characters satisfying p with a single
hyphen.  With p = not slugChar this is re.sub applied to the pattern
of SLUG_INVALID_RE (one or more invalid characters); with p = (. == **-**)
it is re.sub applied to a run of hyphens.  The Boolean argument records
whether the previous character was part of a run (so no new hyphen is
emitted). -/
def collapseRunsAux (p : Char → Bool) : Bool → List Char → List Char
  | _, [] => []
  | inRun, c :: rest =>
    if p c then
      if inRun then collapseRunsAux p true rest
      else '-' :: collapseRunsAux p true rest
    else c :: collapseRunsAux p false rest

def collapseRuns (p : Char → Bool) (l : List Char) : List Char :=
  collapseRunsAux p false l

/-- Python str.strip("-"): drop hyphens from both ends. -/
def stripDashes (l : List Char) : List Char :=
  ((l.dropWhile (fun c => c == '-')).reverse.dropWhile (fun c => c == '-')).reverse

/-- The character-level pipeline of slugify from articles.py, applied
after NFKD normalization: encode("ascii", "ignore") keeps only code
points below 128, str.lower lowercases, the first re.sub collapses
invalid runs to a hyphen, str.strip("-") trims, and the second re.sub
collapses hyphen runs. -/
def slugifyChars (l : List Char) : List Char :=
  let ascii := l.filter (fun c => c.toNat < 128)
  let lowered := ascii.map asciiLower
  let hyphenated := collapseRuns (fun c => !slugChar c) lowered
  let stripped := stripDashes hyphenated
  collapseRuns (fun c => c == '-') stripped

/-- articles.py slugify.  The nfkd parameter stands for
unicodedata.normalize("NFKD", .).  Raising ValueError on an empty
result is embedded as Except.error. -/
def slugify (nfkd : String → String) (value : String) : Except String String :=
  let cleaned := slugifyChars (nfkd value).data
  if cleaned.isEmpty then Except.error "Slug cannot be derived from an empty string."
  else Except.ok (String.mk cleaned)

/-! ## The slug language: a-z0-9 runs separated by single hyphens -/

/-- No two adjacent hyphens occur in the list. -/
def noAdjDash : List Char → Bool
  | [] => true
  | a :: rest =>
    (match rest.head? with
     | some b => !(a == '-' && b == '-')
     | none => true) && noAdjDash rest

/-- Membership in the regular language described by the pattern
of one or more a-z0-9 characters followed by any number of groups of
a hyphen and one or more a-z0-9 characters: nonempty, every character
is a-z, 0-9 or a hyphen, no leading or trailing hyphen, and no two
adjacent hyphens. -/
def isSlugChars (l : List Char) : Bool :=
  !l.isEmpty && l.all slugChar && l.head? != some '-' && l.getLast? != some '-' &&
    noAdjDash l

def isSlugStr (s : String) : Bool := isSlugChars s.data

/-! ## Lemmas about the slug pipeline -/

theorem collapseRunsAux_nil (p : Char → Bool) (b : Bool) : collapseRunsAux p b [] = [] := rfl

theorem collapseRunsAux_cons_pos_true (p : Char → Bool) (c : Char) (l : List Char)
    (h : p c = true) : collapseRunsAux p true (c :: l) = collapseRunsAux p true l := by
  simp [collapseRunsAux, h]

theorem collapseRunsAux_cons_pos_false (p : Char → Bool) (c : Char) (l : List Char)
    (h : p c = true) :
    collapseRunsAux p false (c :: l) = '-' :: collapseRunsAux p true l := by
  simp [collapseRunsAux, h]

theorem collapseRunsAux_cons_neg (p : Char → Bool) (c : Char) (b : Bool) (l : List Char)
    (h : p c = false) :
    collapseRunsAux p b (c :: l) = c :: collapseRunsAux p false l := by
  simp [collapseRunsAux, h]

theorem mem_collapseRunsAux {p : Char → Bool} {b : Bool} {l : List Char} {c : Char}
    (h : c ∈ collapseRunsAux p b l) : c = '-' ∨ (c ∈ l ∧ p c = false) := by
  induction l generalizing b with
  | nil => simp [collapseRunsAux] at h
  | cons d rest ih =>
    by_cases hd : p d
    · cases b with
      | true =>
        rw [collapseRunsAux_cons_pos_true p d rest hd] at h
        rcases ih h with h1 | ⟨h2, h3⟩
        · exact Or.inl h1
        · exact Or.inr ⟨List.mem_cons_of_mem _ h2, h3⟩
      | false =>
        rw [collapseRunsAux_cons_pos_false p d rest hd] at h
        rcases List.mem_cons.mp h with rfl | h
        · exact Or.inl rfl
        · rcases ih h with h1 | ⟨h2, h3⟩
          · exact Or.inl h1
          · exact Or.inr ⟨List.mem_cons_of_mem _ h2, h3⟩
    · rw [collapseRunsAux_cons_neg p d b rest (by simpa using hd)] at h
      rcases List.mem_cons.mp h with rfl | h
      · exact Or.inr ⟨List.mem_cons_self _ _, by simpa using hd⟩
      · rcases ih h with h1 | ⟨h2, h3⟩
        · exact Or.inl h1
        · exact Or.inr ⟨List.mem_cons_of_mem _ h2, h3⟩

theorem collapseRunsAux_ne_nil {p : Char → Bool} {b : Bool} {l : List Char} {c : Char}
    (hc : c ∈ l) (hp : p c = false) : collapseRunsAux p b l ≠ [] := by
  induction l generalizing b with
  | nil => simp at hc
  | cons d rest ih =>
    rcases List.mem_cons.mp hc with rfl | hc
    · rw [collapseRunsAux_cons_neg p c b rest hp]
      simp
    · by_cases hd : p d
      · cases b with
        | true => rw [collapseRunsAux_cons_pos_true p d rest hd]; exact ih hc
        | false => rw [collapseRunsAux_cons_pos_false p d rest hd]; simp
      · rw [collapseRunsAux_cons_neg p d b rest (by simpa using hd)]; simp

theorem head?_collapseRunsAux_true {p : Char → Bool} {l : List Char} {c : Char}
    (h : (collapseRunsAux p true l).head? = some c) : p c = false := by
  induction l with
  | nil => simp [collapseRunsAux] at h
  | cons d rest ih =>
    by_cases hd : p d
    · rw [collapseRunsAux_cons_pos_true p d rest hd] at h
      exact ih h
    · rw [collapseRunsAux_cons_neg p d true rest (by simpa using hd)] at h
      simp only [List.head?_cons, Option.some.injEq] at h
      subst h
      simpa using hd

theorem noAdjDash_collapseRunsAux (b : Bool) (l : List Char) :
    noAdjDash (collapseRunsAux (fun c => c == '-') b l) = true := by
  induction l generalizing b with
  | nil => simp [collapseRunsAux, noAdjDash]
  | cons d rest ih =>
    by_cases hd : (d == '-') = true
    · cases b with
      | true =>
        rw [collapseRunsAux_cons_pos_true (fun c => c == '-') d rest hd]
        exact ih true
      | false =>
        rw [collapseRunsAux_cons_pos_false (fun c => c == '-') d rest hd]
        simp only [noAdjDash]
        rcases hh : (collapseRunsAux (fun c => c == '-') true rest).head? with _ | c
        · simp [ih true]
        · have hc : (c == '-') = false :=
            head?_collapseRunsAux_true (p := fun c => c == '-') hh
          simp [hc, ih true]
    · rw [collapseRunsAux_cons_neg (fun c => c == '-') d b rest (by simpa using hd)]
      simp only [noAdjDash]
      rcases hh : (collapseRunsAux (fun c => c == '-') false rest).head? with _ | c
      · simp [ih false]
      · simp only [Bool.and_eq_true]
        constructor
        · simp only [hd]
          simp
        · exact ih false

theorem getLast?_collapseRunsAux_dash {l : List Char}
    (hl : l.getLast? ≠ some '-') (b : Bool) :
    (collapseRunsAux (fun c => c == '-') b l).getLast? ≠ some '-' := by
  induction l generalizing b with
  | nil => simp [collapseRunsAux]
  | cons d rest ih =>
    cases rest with
    | nil =>
      have hd : ((d == '-') : Bool) = false := by
        simp only [List.getLast?_singleton] at hl
        simpa using hl
      rw [collapseRunsAux_cons_neg (fun c => c == '-') d b [] hd]
      simpa [collapseRunsAux, List.getLast?_singleton] using hl
    | cons e rest2 =>
      have hl2 : (e :: rest2).getLast? ≠ some '-' := by
        rwa [List.getLast?_cons_cons] at hl
      have hz : ∃ z, (e :: rest2).getLast? = some z ∧ z ≠ '-' := by
        rcases hgl : (e :: rest2).getLast? with _ | z
        · simp at hgl
        · exact ⟨z, rfl, by rw [hgl] at hl2; simpa using hl2⟩
      rcases hz with ⟨z, hz1, hz2⟩
      have hzmem : z ∈ e :: rest2 := List.mem_of_getLast?_eq_some hz1
      have hne : collapseRunsAux (fun c => c == '-') true (e :: rest2) ≠ [] :=
        collapseRunsAux_ne_nil hzmem (by simpa using hz2)
      have hne2 : collapseRunsAux (fun c => c == '-') false (e :: rest2) ≠ [] :=
        collapseRunsAux_ne_nil hzmem (by simpa using hz2)
      by_cases hd : (d == '-') = true
      · cases b with
        | true =>
          rw [collapseRunsAux_cons_pos_true (fun c => c == '-') d (e :: rest2) hd]
          exact ih hl2 true
        | false =>
          rw [collapseRunsAux_cons_pos_false (fun c => c == '-') d (e :: rest2) hd]
          rcases hx : collapseRunsAux (fun c => c == '-') true (e :: rest2) with _ | ⟨y, ys⟩
          · exact absurd hx hne
          · rw [List.getLast?_cons_cons]
            have hres := ih hl2 true
            rw [hx] at hres
            exact hres
      · rw [collapseRunsAux_cons_neg (fun c => c == '-') d b (e :: rest2) (by simpa using hd)]
        rcases hx : collapseRunsAux (fun c => c == '-') false (e :: rest2) with _ | ⟨y, ys⟩
        · exact absurd hx hne2
        · rw [List.getLast?_cons_cons]
          have hres := ih hl2 false
          rw [hx] at hres
          exact hres

theorem head?_collapseRunsAux_false {l : List Char}
    (hl : l.head? ≠ some '-') :
    (collapseRunsAux (fun c => c == '-') false l).head? ≠ some '-' := by
  cases l with
  | nil => simp [collapseRunsAux]
  | cons d rest =>
    have hd : ((d == '-') : Bool) = false := by simpa using hl
    rw [collapseRunsAux_cons_neg (fun c => c == '-') d false rest hd]
    simpa using hl

theorem head?_dropWhile {p : Char → Bool} {l : List Char} {c : Char}
    (h : (l.dropWhile p).head? = some c) : p c = false := by
  induction l with
  | nil => simp [List.dropWhile] at h
  | cons d rest ih =>
    by_cases hd : p d
    · rw [List.dropWhile_cons_of_pos hd] at h
      exact ih h
    · rw [List.dropWhile_cons_of_neg hd] at h
      simp only [List.head?_cons, Option.some.injEq] at h
      subst h
      simpa using hd

theorem stripDashes_isPrefixDrop (l : List Char) :
    stripDashes l <+: l.dropWhile (fun c => c == '-') := by
  unfold stripDashes
  set f := l.dropWhile (fun c => c == '-') with hf
  have h1 : f.reverse.dropWhile (fun c => c == '-') <:+ f.reverse :=
    List.dropWhile_suffix _
  have h2 : (f.reverse.dropWhile (fun c => c == '-')).reverse <+: f.reverse.reverse :=
    List.reverse_prefix.mpr h1
  simpa using h2

theorem mem_stripDashes {l : List Char} {c : Char} (h : c ∈ stripDashes l) : c ∈ l := by
  have h1 := (stripDashes_isPrefixDrop l).subset h
  exact (List.dropWhile_sublist _).subset h1

theorem head?_stripDashes {l : List Char} {c : Char}
    (h : (stripDashes l).head? = some c) : (c == '-') = false := by
  rcases stripDashes_isPrefixDrop l with ⟨t, ht⟩
  cases hsd : stripDashes l with
  | nil => rw [hsd] at h; simp at h
  | cons d ds =>
    rw [hsd] at h
    simp only [List.head?_cons, Option.some.injEq] at h
    subst h
    rw [hsd] at ht
    have hh : (l.dropWhile (fun c => c == '-')).head? = some d := by
      rw [← ht]; simp
    exact head?_dropWhile (p := fun c => c == '-') hh

theorem getLast?_stripDashes {l : List Char} {c : Char}
    (h : (stripDashes l).getLast? = some c) : (c == '-') = false := by
  unfold stripDashes at h
  rw [List.getLast?_reverse] at h
  exact head?_dropWhile (p := fun c => c == '-') h

/-- Every successfully derived slug lies in the slug language. -/
theorem slugifyChars_valid {l : List Char} (h : slugifyChars l ≠ []) :
    isSlugChars (slugifyChars l) = true := by
  unfold slugifyChars
  unfold slugifyChars at h
  set lowered := (l.filter (fun c => c.toNat < 128)).map asciiLower with hlow
  set hyph := collapseRuns (fun c => !slugChar c) lowered with hhyph
  set stripped := stripDashes hyph with hstr
  set final := collapseRuns (fun c => c == '-') stripped with hfin
  have hall : ∀ c ∈ final, slugChar c = true := by
    intro c hc
    rcases mem_collapseRunsAux hc with rfl | ⟨hc2, _⟩
    · decide
    · have hc3 : c ∈ hyph := mem_stripDashes hc2
      rcases mem_collapseRunsAux hc3 with rfl | ⟨_, hc5⟩
      · decide
      · simpa using hc5
  have hhead : final.head? ≠ some '-' := by
    apply head?_collapseRunsAux_false
    intro hcon
    have := head?_stripDashes hcon
    simp at this
  have hlast : final.getLast? ≠ some '-' := by
    apply getLast?_collapseRunsAux_dash
    intro hcon
    have := getLast?_stripDashes hcon
    simp at this
  have hnadj : noAdjDash final = true := noAdjDash_collapseRunsAux false stripped
  simp only [isSlugChars, Bool.and_eq_true, List.all_eq_true]
  refine ⟨⟨⟨⟨by simpa [List.isEmpty_iff] using h, hall⟩, ?_⟩, ?_⟩, hnadj⟩
  · rcases hh : final.head? with _ | c
    · simp
    · rw [hh] at hhead
      simp only [bne_iff_ne, ne_eq, Option.some.injEq]
      intro hcon
      exact hhead (by rw [hcon])
  · rcases hh : final.getLast? with _ | c
    · simp
    · rw [hh] at hlast
      simp only [bne_iff_ne, ne_eq, Option.some.injEq]
      intro hcon
      exact hlast (by rw [hcon])

theorem isSlugChars_iff {l : List Char} :
    isSlugChars l = true ↔
      l ≠ [] ∧ (∀ c ∈ l, slugChar c = true) ∧ l.head? ≠ some '-' ∧
        l.getLast? ≠ some '-' ∧ noAdjDash l = true := by
  simp only [isSlugChars, Bool.and_eq_true, List.all_eq_true, Bool.not_eq_true',
    List.isEmpty_eq_false, bne_iff_ne, ne_eq]
  tauto

theorem collapseRunsAux_id_of_none {p : Char → Bool} {l : List Char}
    (h : ∀ c ∈ l, p c = false) (b : Bool) : collapseRunsAux p b l = l := by
  induction l generalizing b with
  | nil => rfl
  | cons d rest ih =>
    rw [collapseRunsAux_cons_neg p d b rest (h d (List.mem_cons_self _ _))]
    rw [ih (fun c hc => h c (List.mem_cons_of_mem _ hc)) false]

theorem dropWhile_eq_self_of_head {p : Char → Bool} {l : List Char}
    (h : ∀ c, l.head? = some c → p c = false) : l.dropWhile p = l := by
  cases l with
  | nil => rfl
  | cons d rest =>
    have := h d rfl
    rw [List.dropWhile_cons_of_neg (by simp [this])]

theorem stripDashes_eq_self {l : List Char}
    (hh : l.head? ≠ some '-') (hl : l.getLast? ≠ some '-') : stripDashes l = l := by
  unfold stripDashes
  have h1 : l.dropWhile (fun c => c == '-') = l := by
    apply dropWhile_eq_self_of_head
    intro c hc
    simp only [beq_eq_false_iff_ne, ne_eq]
    intro hcon
    subst hcon
    exact hh hc
  rw [h1]
  have h2 : l.reverse.dropWhile (fun c => c == '-') = l.reverse := by
    apply dropWhile_eq_self_of_head
    intro c hc
    rw [List.head?_reverse] at hc
    simp only [beq_eq_false_iff_ne, ne_eq]
    intro hcon
    subst hcon
    exact hl hc
  rw [h2, List.reverse_reverse]

theorem collapseRunsAux_dash_id {l : List Char} (hadj : noAdjDash l = true) :
    collapseRunsAux (fun c => c == '-') false l = l ∧
      (l.head? ≠ some '-' → collapseRunsAux (fun c => c == '-') true l = l) := by
  induction l with
  | nil => exact ⟨rfl, fun _ => rfl⟩
  | cons d rest ih =>
    have hadjr : noAdjDash rest = true := by
      simp only [noAdjDash, Bool.and_eq_true] at hadj
      exact hadj.2
    by_cases hd : (d == '-') = true
    · have hdd : d = '-' := by simpa using hd
      subst hdd
      have hresthead : rest.head? ≠ some '-' := by
        intro hcon
        simp only [noAdjDash, hcon, Bool.and_eq_true] at hadj
        simp at hadj
      have htrue : collapseRunsAux (fun c => c == '-') true rest = rest :=
        (ih hadjr).2 hresthead
      constructor
      · rw [collapseRunsAux_cons_pos_false (fun c => c == '-') '-' rest (by simp), htrue]
      · intro hcon
        simp at hcon
    · constructor
      · rw [collapseRunsAux_cons_neg (fun c => c == '-') d false rest (by simpa using hd)]
        rw [(ih hadjr).1]
      · intro _
        rw [collapseRunsAux_cons_neg (fun c => c == '-') d true rest (by simpa using hd)]
        rw [(ih hadjr).1]

theorem slugChar_ascii {c : Char} (h : slugChar c = true) : c.toNat < 128 := by
  simp only [slugChar, Bool.or_eq_true, Bool.and_eq_true, decide_eq_true_eq,
    Nat.le_iff_lt_or_eq, beq_iff_eq] at h
  omega

theorem asciiLower_slugChar {c : Char} (h : slugChar c = true) : asciiLower c = c := by
  simp only [slugChar, Bool.or_eq_true, Bool.and_eq_true, decide_eq_true_eq,
    beq_iff_eq] at h
  unfold asciiLower
  have : ¬(65 ≤ c.toNat ∧ c.toNat ≤ 90) := by omega
  simp only [Bool.and_eq_true, decide_eq_true_eq]
  rw [if_neg this]

/-- A string already in the slug language passes through the character
pipeline unchanged. -/
theorem slugifyChars_id {l : List Char} (h : isSlugChars l = true) :
    slugifyChars l = l := by
  rcases isSlugChars_iff.mp h with ⟨_, hall, hhead, hlast, hadj⟩
  show collapseRuns (fun c => c == '-')
      (stripDashes (collapseRuns (fun c => !slugChar c)
        ((l.filter (fun c => c.toNat < 128)).map asciiLower))) = l
  have h1 : l.filter (fun c => c.toNat < 128) = l := by
    rw [List.filter_eq_self]
    intro c hc
    simpa using slugChar_ascii (hall c hc)
  rw [h1]
  have h2 : l.map asciiLower = l := by
    have : ∀ m : List Char, (∀ c ∈ m, slugChar c = true) → m.map asciiLower = m := by
      intro m hm
      induction m with
      | nil => rfl
      | cons d rest ih =>
        simp only [List.map_cons]
        rw [asciiLower_slugChar (hm d (List.mem_cons_self _ _)),
          ih (fun c hc => hm c (List.mem_cons_of_mem _ hc))]
    exact this l hall
  rw [h2]
  have h3 : collapseRuns (fun c => !slugChar c) l = l := by
    unfold collapseRuns
    apply collapseRunsAux_id_of_none
    intro c hc
    simp [hall c hc]
  rw [h3]
  rw [stripDashes_eq_self hhead hlast]
  exact (collapseRunsAux_dash_id hadj).1

theorem slugify_eq_ok {nfkd : String → String} {x s : String}
    (h : slugify nfkd x = Except.ok s) :
    s.data = slugifyChars (nfkd x).data ∧ slugifyChars (nfkd x).data ≠ [] := by
  unfold slugify at h
  by_cases hemp : (slugifyChars (nfkd x).data).isEmpty
  · rw [if_pos hemp] at h
    exact absurd h (by simp)
  · rw [if_neg hemp] at h
    simp only [Except.ok.injEq] at h
    subst h
    exact ⟨rfl, by simpa [List.isEmpty_iff] using hemp⟩

theorem isSlugStr_of_slugify_ok {nfkd : String → String} {x s : String}
    (h : slugify nfkd x = Except.ok s) : isSlugStr s = true := by
  rcases slugify_eq_ok h with ⟨hdata, hne⟩
  unfold isSlugStr
  rw [hdata]
  exact slugifyChars_valid hne

theorem slugify_fixes_slug {nfkd : String → String} {s : String}
    (hn : nfkd s = s) (hs : isSlugStr s = true) : slugify nfkd s = Except.ok s := by
  unfold slugify
  rw [hn]
  have hid : slugifyChars s.data = s.data := slugifyChars_id hs
  rw [hid]
  have hne : s.data ≠ [] := by
    rcases isSlugChars_iff.mp hs with ⟨h1, _⟩
    exact h1
  rw [if_neg (by simpa [List.isEmpty_iff] using hne)]

/-- C8: slugify is idempotent — whenever slugify succeeds on x with
result s, applying slugify to s succeeds and returns s unchanged — and
every successful result lies in the regular language of one or more
a-z0-9 characters followed by groups of a single hyphen and one or
more a-z0-9 characters (non-empty, lowercase alphanumeric runs
separated by single hyphens, no leading or trailing hyphen).  The nfkd
hypothesis is the NFKD property actually used: pure-ASCII slug strings
are fixed points of the normalization. -/
theorem c8_slugify_idempotent_and_regular (nfkd : String → String) (x s : String)
    (hn : ∀ t : String, isSlugStr t = true → nfkd t = t)
    (h : slugify nfkd x = Except.ok s) :
    isSlugStr s = true ∧ slugify nfkd s = Except.ok s := by
  have hs : isSlugStr s = true := isSlugStr_of_slugify_ok h
  exact ⟨hs, slugify_fixes_slug (hn s hs) hs⟩

/-- Witness for C8 at a concrete input: slugify of a mixed string
succeeds, and the result is a fixed point in the slug language. -/
theorem c8_witness :
    isSlugStr "hello-world" = true ∧ slugify id "hello-world" = Except.ok "hello-world" :=
  c8_slugify_idempotent_and_regular id "  Hello,  World! " "hello-world"
    (fun _ _ => rfl) rfl


/-! ## Values and dictionaries

Python values stored in payload dictionaries.  dictV / listV mirror
nested dicts and lists; the embedding defines decidable equality by a
mutual Boolean comparison proved sound below. -/

inductive Val where
  | str (s : String)
  | natV (n : Nat)
  | boolV (b : Bool)
  | listV (vs : List Val)
  | dictV (fields : List (String × Val))
  | nullV

mutual
def valBeq : Val → Val → Bool
  | .str a, .str b => a == b
  | .natV a, .natV b => a == b
  | .boolV a, .boolV b => a == b
  | .listV as, .listV bs => valListBeq as bs
  | .dictV as, .dictV bs => valDictBeq as bs
  | .nullV, .nullV => true
  | _, _ => false
def valListBeq : List Val → List Val → Bool
  | [], [] => true
  | a :: as, b :: bs => valBeq a b && valListBeq as bs
  | _, _ => false
def valDictBeq : List (String × Val) → List (String × Val) → Bool
  | [], [] => true
  | (k1, v1) :: as, (k2, v2) :: bs => k1 == k2 && valBeq v1 v2 && valDictBeq as bs
  | _, _ => false
end

example : valBeq (Val.listV [Val.str "a"]) (Val.listV [Val.str "a"]) = true := rfl

mutual
theorem valBeq_eq : ∀ {a b : Val}, valBeq a b = true → a = b
  | .str a, .str b, h => by simpa [valBeq] using h
  | .natV a, .natV b, h => by simpa [valBeq] using h
  | .boolV a, .boolV b, h => by simpa [valBeq] using h
  | .listV as, .listV bs, h => by
    have h2 : valListBeq as bs = true := by simpa [valBeq] using h
    rw [valListBeq_eq h2]
  | .dictV as, .dictV bs, h => by
    have h2 : valDictBeq as bs = true := by simpa [valBeq] using h
    rw [valDictBeq_eq h2]
  | .nullV, .nullV, _ => rfl
  | .str a, .natV b, h => by simp [valBeq] at h
  | .str a, .boolV b, h => by simp [valBeq] at h
  | .str a, .listV b, h => by simp [valBeq] at h
  | .str a, .dictV b, h => by simp [valBeq] at h
  | .str a, .nullV, h => by simp [valBeq] at h
  | .natV a, .str b, h => by simp [valBeq] at h
  | .natV a, .boolV b, h => by simp [valBeq] at h
  | .natV a, .listV b, h => by simp [valBeq] at h
  | .natV a, .dictV b, h => by simp [valBeq] at h
  | .natV a, .nullV, h => by simp [valBeq] at h
  | .boolV a, .str b, h => by simp [valBeq] at h
  | .boolV a, .natV b, h => by simp [valBeq] at h
  | .boolV a, .listV b, h => by simp [valBeq] at h
  | .boolV a, .dictV b, h => by simp [valBeq] at h
  | .boolV a, .nullV, h => by simp [valBeq] at h
  | .listV a, .str b, h => by simp [valBeq] at h
  | .listV a, .natV b, h => by simp [valBeq] at h
  | .listV a, .boolV b, h => by simp [valBeq] at h
  | .listV a, .dictV b, h => by simp [valBeq] at h
  | .listV a, .nullV, h => by simp [valBeq] at h
  | .dictV a, .str b, h => by simp [valBeq] at h
  | .dictV a, .natV b, h => by simp [valBeq] at h
  | .dictV a, .boolV b, h => by simp [valBeq] at h
  | .dictV a, .listV b, h => by simp [valBeq] at h
  | .dictV a, .nullV, h => by simp [valBeq] at h
  | .nullV, .str b, h => by simp [valBeq] at h
  | .nullV, .natV b, h => by simp [valBeq] at h
  | .nullV, .boolV b, h => by simp [valBeq] at h
  | .nullV, .listV b, h => by simp [valBeq] at h
  | .nullV, .dictV b, h => by simp [valBeq] at h
theorem valListBeq_eq : ∀ {as bs : List Val}, valListBeq as bs = true → as = bs
  | [], [], _ => rfl
  | a :: as, b :: bs, h => by
    have h2 : valBeq a b = true ∧ valListBeq as bs = true := by
      simpa [valListBeq, Bool.and_eq_true] using h
    rw [valBeq_eq h2.1, valListBeq_eq h2.2]
  | [], b :: bs, h => by simp [valListBeq] at h
  | a :: as, [], h => by simp [valListBeq] at h
theorem valDictBeq_eq :
    ∀ {as bs : List (String × Val)}, valDictBeq as bs = true → as = bs
  | [], [], _ => rfl
  | (k1, v1) :: as, (k2, v2) :: bs, h => by
    have h2 : (k1 == k2) = true ∧ valBeq v1 v2 = true ∧ valDictBeq as bs = true := by
      simpa [valDictBeq, Bool.and_eq_true, and_assoc] using h
    have hk : k1 = k2 := by simpa using h2.1
    rw [hk, valBeq_eq h2.2.1, valDictBeq_eq h2.2.2]
  | [], b :: bs, h => by simp [valDictBeq] at h
  | a :: as, [], h => by simp [valDictBeq] at h
end

mutual
theorem valBeq_refl : ∀ (a : Val), valBeq a a = true
  | .str a => by simp [valBeq]
  | .natV a => by simp [valBeq]
  | .boolV a => by simp [valBeq]
  | .listV as => by simpa [valBeq] using valListBeq_refl as
  | .dictV as => by simpa [valBeq] using valDictBeq_refl as
  | .nullV => rfl
theorem valListBeq_refl : ∀ (as : List Val), valListBeq as as = true
  | [] => rfl
  | a :: as => by simp [valListBeq, valBeq_refl a, valListBeq_refl as]
theorem valDictBeq_refl : ∀ (as : List (String × Val)), valDictBeq as as = true
  | [] => rfl
  | (k, v) :: as => by simp [valDictBeq, valBeq_refl v, valDictBeq_refl as]
end

instance : DecidableEq Val := fun a b =>
  decidable_of_iff (valBeq a b = true) ⟨valBeq_eq, fun h => h ▸ valBeq_refl a⟩

example : (Val.dictV [("a", Val.listV [Val.natV 1])]) ≠ Val.nullV := by decide

/-- An insertion-ordered string-keyed dictionary (Python dict). -/
abbrev Assoc : Type := List (String × Val)

/-- Python d.get(k) / k in d: first (and, for genuine dicts, only)
entry with key k. -/
def dictGet (d : Assoc) (k : String) : Option Val :=
  (List.find? (fun kv => kv.1 == k) d).map (fun kv => kv.2)

/-- Python d[k] = v: update the entry in place if the key is present,
append otherwise. -/
def dictSet (d : Assoc) (k : String) (v : Val) : Assoc :=
  if List.any d (fun kv => kv.1 == k) then
    List.map (fun kv => if kv.1 == k then (k, v) else kv) d
  else d ++ [(k, v)]

/-- Python del d[k]. -/
def dictDel (d : Assoc) (k : String) : Assoc :=
  List.filter (fun kv => kv.1 != k) d

/-- Python dict merge as in a PATCH update: entries of b override
entries of a, preserving insertion order. -/
def dictMerge (a b : Assoc) : Assoc :=
  List.foldl (fun acc kv => dictSet acc kv.1 kv.2) a b

/-- Python truthiness of a value (used by `or` and by `if x:`). -/
def valTruthy : Val → Bool
  | .str s => !s.isEmpty
  | .natV n => n != 0
  | .boolV b => b
  | .listV vs => !vs.isEmpty
  | .dictV fs => !fs.isEmpty
  | .nullV => false

/-- Python whitespace characters recognized by str.strip (space, tab,
newline, carriage return, vertical tab, form feed). -/
def isPySpace (c : Char) : Bool :=
  c.toNat == 32 || c.toNat == 9 || c.toNat == 10 || c.toNat == 13 ||
    c.toNat == 11 || c.toNat == 12

/-- Python str.strip(). -/
def pyStrip (s : String) : String :=
  String.mk (((s.data.dropWhile isPySpace).reverse.dropWhile isPySpace).reverse)

/-! ## Dictionary lemmas -/

theorem find?_map_congr {α : Type} (f : α → α) (p : α → Bool) (l : List α)
    (h : ∀ e ∈ l, p (f e) = p e ∧ (p e = true → f e = e)) :
    List.find? p (List.map f l) = List.find? p l := by
  induction l with
  | nil => rfl
  | cons e rest ih =>
    rcases h e (List.mem_cons_self _ _) with ⟨hpe, hfix⟩
    by_cases hp : p e = true
    · rw [List.map_cons, List.find?_cons_of_pos _ (by rw [hpe, hp]),
        List.find?_cons_of_pos _ hp, hfix hp]
    · rw [List.map_cons, List.find?_cons_of_neg _ (by simp [hpe, hp]),
        List.find?_cons_of_neg _ (by simp [hp])]
      exact ih (fun e he => h e (List.mem_cons_of_mem _ he))

theorem any_key_false {d : Assoc} {k : String}
    (h : List.any d (fun kv => kv.1 == k) = false) : ∀ kv ∈ d, kv.1 ≠ k := by
  intro kv hkv hc
  have h2 : List.any d (fun kv => kv.1 == k) = true :=
    List.any_eq_true.mpr ⟨kv, hkv, by simpa using hc⟩
  rw [h] at h2
  exact Bool.false_ne_true h2

theorem dictGet_eq_none_iff {d : Assoc} {k : String} :
    dictGet d k = none ↔ ∀ kv ∈ d, kv.1 ≠ k := by
  unfold dictGet
  simp [List.find?_eq_none]

theorem dictGet_dictSet_self (d : Assoc) (k : String) (v : Val) :
    dictGet (dictSet d k v) k = some v := by
  unfold dictSet
  by_cases h : List.any d (fun kv => kv.1 == k) = true
  · rw [if_pos h]
    unfold dictGet
    induction d with
    | nil => simp at h
    | cons kv rest ih =>
      by_cases hk : (kv.1 == k) = true
      · rw [List.map_cons, if_pos hk, List.find?_cons_of_pos _ (by simp)]
        rfl
      · rw [List.any_cons] at h
        rw [List.map_cons, if_neg hk, List.find?_cons_of_neg _ (by simp [hk])]
        exact ih (by simpa [hk] using h)
  · rw [if_neg h]
    unfold dictGet
    rw [List.find?_append]
    have hnone : List.find? (fun kv => kv.1 == k) d = none := by
      rw [List.find?_eq_none]
      intro kv hkv
      have := any_key_false (by simp only [Bool.not_eq_true] at h; exact h) kv hkv
      simpa using this
    rw [hnone]
    simp

theorem dictGet_dictSet_ne (d : Assoc) (k v : _) {q : String} (hne : q ≠ k) :
    dictGet (dictSet d k v) q = dictGet d q := by
  unfold dictSet
  by_cases h : List.any d (fun kv => kv.1 == k) = true
  · rw [if_pos h]
    unfold dictGet
    rw [find?_map_congr]
    intro e _
    by_cases hek : (e.1 == k) = true
    · have he : e.1 = k := by simpa using hek
      refine ⟨?_, ?_⟩
      · rw [if_pos hek]
        have h1 : (k == q) = false := by
          simp only [beq_eq_false_iff_ne, ne_eq]
          exact fun hc => hne hc.symm
        have h2 : (e.1 == q) = false := by
          rw [he]
          exact h1
        simp [h1, h2]
      · intro hq
        have heq : e.1 = q := by simpa using hq
        exact absurd (heq.symm.trans he) hne
    · constructor
      · rw [if_neg hek]
      · intro _
        rw [if_neg hek]
  · rw [if_neg h]
    unfold dictGet
    rw [List.find?_append]
    have h2 : List.find? (fun kv => kv.1 == q) [(k, v)] = none := by
      rw [List.find?_eq_none]
      intro kv hkv
      simp only [List.mem_singleton] at hkv
      subst hkv
      simpa using fun hc => hne hc.symm
    rw [h2]
    simp

theorem mem_dictSet_ne {d : Assoc} {k : String} {v : Val} {kv : String × Val}
    (hmem : kv ∈ dictSet d k v) (hne : kv.1 ≠ k) : kv ∈ d := by
  unfold dictSet at hmem
  by_cases h : List.any d (fun kv => kv.1 == k) = true
  · rw [if_pos h] at hmem
    rcases List.mem_map.mp hmem with ⟨e, hmem2, hfe⟩
    by_cases hek : (e.1 == k) = true
    · rw [if_pos hek] at hfe
      exact absurd (by rw [← hfe]) hne
    · rw [if_neg hek] at hfe
      exact hfe ▸ hmem2
  · rw [if_neg h] at hmem
    rcases List.mem_append.mp hmem with h1 | h1
    · exact h1
    · simp only [List.mem_singleton] at h1
      subst h1
      simp at hne

theorem dictSet_keyvals {d : Assoc} {k : String} {v : Val} {kv : String × Val}
    (hmem : kv ∈ dictSet d k v) (hk : kv.1 = k) : kv.2 = v := by
  unfold dictSet at hmem
  by_cases h : List.any d (fun kv => kv.1 == k) = true
  · rw [if_pos h] at hmem
    rcases List.mem_map.mp hmem with ⟨e, _, hfe⟩
    by_cases hek : (e.1 == k) = true
    · rw [if_pos hek] at hfe
      rw [← hfe]
    · rw [if_neg hek] at hfe
      rw [← hfe] at hk
      simp [hk] at hek
  · rw [if_neg h] at hmem
    rcases List.mem_append.mp hmem with h1 | h1
    · have := any_key_false (by simp only [Bool.not_eq_true] at h; exact h) kv h1
      exact absurd hk this
    · simp only [List.mem_singleton] at h1
      rw [h1]

theorem dictSet_exists_key (d : Assoc) (k : String) (v : Val) :
    ∃ kv ∈ dictSet d k v, kv.1 = k := by
  unfold dictSet
  by_cases h : List.any d (fun kv => kv.1 == k) = true
  · rw [if_pos h]
    rcases List.any_eq_true.mp h with ⟨e, hmem, hek⟩
    refine ⟨(k, v), List.mem_map.mpr ⟨e, hmem, by rw [if_pos hek]⟩, rfl⟩
  · rw [if_neg h]
    exact ⟨(k, v), List.mem_append.mpr (Or.inr (List.mem_singleton.mpr rfl)), rfl⟩

theorem mem_dictSet_of_mem_ne {d : Assoc} {kv : String × Val} (hmem : kv ∈ d)
    {k : String} (hne : kv.1 ≠ k) (v : Val) : kv ∈ dictSet d k v := by
  unfold dictSet
  by_cases h : List.any d (fun kv => kv.1 == k) = true
  · rw [if_pos h]
    refine List.mem_map.mpr ⟨kv, hmem, ?_⟩
    rw [if_neg (by simpa using hne)]
  · rw [if_neg h]
    exact List.mem_append.mpr (Or.inl hmem)

theorem dictGet_dictMerge_absent (a : Assoc) {b : Assoc} {k : String}
    (h : ∀ kv ∈ b, kv.1 ≠ k) : dictGet (dictMerge a b) k = dictGet a k := by
  induction b generalizing a with
  | nil => rfl
  | cons kv rest ih =>
    show dictGet (dictMerge (dictSet a kv.1 kv.2) rest) k = dictGet a k
    rw [ih (dictSet a kv.1 kv.2) (fun e he => h e (List.mem_cons_of_mem _ he))]
    exact dictGet_dictSet_ne a kv.1 kv.2
      (fun hc => h kv (List.mem_cons_self _ _) hc.symm)

theorem dictGet_dictMerge_const (a : Assoc) {b : Assoc} {k : String} {v : Val}
    (hex : ∃ kv ∈ b, kv.1 = k) (hall : ∀ kv ∈ b, kv.1 = k → kv.2 = v) :
    dictGet (dictMerge a b) k = some v := by
  induction b generalizing a with
  | nil => simp at hex
  | cons kv rest ih =>
    show dictGet (dictMerge (dictSet a kv.1 kv.2) rest) k = some v
    by_cases hrest : ∃ e ∈ rest, e.1 = k
    · exact ih (dictSet a kv.1 kv.2) hrest
        (fun e he hk => hall e (List.mem_cons_of_mem _ he) hk)
    · have hk : kv.1 = k := by
        rcases hex with ⟨e, hmem, hek⟩
        rcases List.mem_cons.mp hmem with rfl | hmem2
        · exact hek
        · exact absurd ⟨e, hmem2, hek⟩ hrest
      have hv : kv.2 = v := hall kv (List.mem_cons_self _ _) hk
      rw [dictGet_dictMerge_absent (dictSet a kv.1 kv.2)
        (fun e he hc => hrest ⟨e, he, hc⟩)]
      rw [hk, hv]
      exact dictGet_dictSet_self a k v

/-! ## The document store client

payload_client.py is a thin REST client; the remote Payload CMS server
is an external collaborator.  The model keeps one collection as a list
of documents together with an id counter (the server assigns fresh
numeric ids on create, and every stored id is below the counter), and
records every REST call the client issues in order. -/

inductive Call where
  | lookup (field : String) (value : Val)
  | create (payload : Assoc)
  | update (i : Val) (payload : Assoc)
  | upload (filename : String) (payload : Assoc)
  | listDocs
  | delete (i : Val)
deriving DecidableEq

/-- State of one collection of the document store plus the trace of
REST calls issued so far. -/
structure St where
  docs : List Assoc
  nextId : Nat
  trace : List Call
deriving DecidableEq

/-- payload_client.py find_first_by_field: one list call filtered by
field equality; returns the first matching document. -/
def find_first_by_field (field : String) (value : Val) (st : St) : Option Assoc × St :=
  (List.find? (fun d => decide (dictGet d field = some value)) st.docs,
   { st with trace := st.trace ++ [Call.lookup field value] })

/-- payload_client.py create_document: the store creates the document
from the payload and assigns it a fresh id. -/
def create_document (payload : Assoc) (st : St) : Assoc × St :=
  let doc := dictSet payload "id" (Val.natV st.nextId)
  (doc,
   { docs := st.docs ++ [doc], nextId := st.nextId + 1,
     trace := st.trace ++ [Call.create payload] })

/-- payload_client.py update_document: the store applies a partial
update to the document carrying this id. -/
def update_document (i : Val) (payload : Assoc) (st : St) : Assoc × St :=
  let updated :=
    match List.find? (fun d => decide (dictGet d "id" = some i)) st.docs with
    | some d => dictMerge d payload
    | none => payload
  (updated,
   { st with
       docs := List.map
         (fun d => if decide (dictGet d "id" = some i) then dictMerge d payload else d)
         st.docs,
       trace := st.trace ++ [Call.update i payload] })

/-- payload_client.py upsert_by_field: look up at most one existing
document by field equality; update it when found (raising when the
found document has no id), create otherwise. -/
def upsert_by_field (field : String) (value : Val) (payload : Assoc) (st : St) :
    Except String (Assoc × St) :=
  match find_first_by_field field value st with
  | (some d, st1) =>
    match dictGet d "id" with
    | none => Except.error "Existing document is missing an id field required for updates."
    | some i => Except.ok (update_document i payload st1)
  | (none, st1) => Except.ok (create_document payload st1)

/-! ## Path slugs (articles.py slugify_path and the slug-prefix step) -/

def isSep (c : Char) : Bool := c == '/' || c == '\\'

/-- re.split on one or more slashes or backslashes followed by the
filter dropping empty parts, as used by the path slugifier: the
non-separator runs of the string. -/
def pathPartsAux (cur : List Char) : List Char → List (List Char)
  | [] => if cur.isEmpty then [] else [cur.reverse]
  | c :: rest =>
    if isSep c then
      if cur.isEmpty then pathPartsAux [] rest
      else cur.reverse :: pathPartsAux [] rest
    else pathPartsAux (c :: cur) rest

def pathParts (s : String) : List String :=
  List.map String.mk (pathPartsAux [] s.data)

/-- articles.py slugify_path: slugify each component and join them
using the slash character. -/
def slugifyPath (nfkd : String → String) (value : String) : Except String String := do
  let parts := pathParts value
  if parts.isEmpty then Except.ok ""
  else do
    let slugParts ← parts.mapM (slugify nfkd)
    Except.ok (String.intercalate "/" slugParts)

/-- The slug computation of upload_article_from_file when a slug
prefix is supplied (articles.py): the normalized prefix, a hyphen, and
the slug of the file stem.  upload_articles_from_directory passes the
article file's directory path relative to the root as the prefix. -/
def slugWithDirPre (nfkd : String → String) (pfx stem : String) :
    Except String String := do
  let normalized ← slugifyPath nfkd pfx
  let filenameSlug ← slugify nfkd stem
  Except.ok (normalized ++ "-" ++ filenameSlug)

/-- C1: evaluation of the slug computation at a file nested two
directory levels deep.  The directory orchestrator passes the prefix
Italy/Tuscany for a file Italy/Tuscany/florence.html; the code joins
the slugified path components with a slash, not a hyphen, so the
computed slug is italy/tuscany-florence, which contains a slash and
differs from the hyphen-joined slug the specification prescribes.
This contradicts the code comment at the call site, which switches to
a hyphen precisely because the target slug field cannot be nested. -/
theorem c1_nested_dir_slug_contains_slash :
    slugWithDirPre id "Italy/Tuscany" "florence" = Except.ok "italy/tuscany-florence" ∧
      '/' ∈ "italy/tuscany-florence".data ∧
      "italy/tuscany-florence" ≠ "italy-tuscany-florence" :=
  ⟨rfl, by decide, by decide⟩

/-! ## Category resolution (articles.py ensure_categories) -/

/-- One iteration of the OrderedDict deduplication pass of
ensure_categories: strip the label, reject it when empty, slugify it,
and record the first-seen label per slug (setdefault). -/
def dedupStep (nfkd : String → String) (acc : List (String × String))
    (name : String) : Except String (List (String × String)) := do
  let label := pyStrip name
  if label.isEmpty then
    Except.error "Category names cannot be empty or whitespace."
  else do
    let slug ← slugify nfkd label
    if List.any acc (fun kv => kv.1 == slug) then Except.ok acc
    else Except.ok (acc ++ [(slug, label)])

/-- The OrderedDict deduplication pass of ensure_categories: strip
each label, reject empty ones, key by slug, keep the first-seen label
per slug.  Inputs are already strings (the TypeError branch for
non-string labels is outside the embedding because the Lean type rules
it out). -/
def dedupCategories (nfkd : String → String) (categories : List String) :
    Except String (List (String × String)) :=
  categories.foldlM (dedupStep nfkd) []

/-- The per-category payload of ensure_categories: defaults with the
slug field and the label field written on top. -/
def mkCategoryPayload (defaults : Assoc) (slugF labelF : String)
    (slug label : String) : Assoc :=
  dictSet (dictSet defaults slugF (Val.str slug)) labelF (Val.str label)

/-- The upsert loop of ensure_categories over the deduplicated
candidates, collecting the returned documents in order. -/
def ensureLoop (slugF labelF : String) (defaults : Assoc) :
    List (String × String) → St → Except String (List Assoc × St)
  | [], st => Except.ok ([], st)
  | (slug, label) :: rest, st => do
    let (doc, st1) ←
      upsert_by_field slugF (Val.str slug)
        (mkCategoryPayload defaults slugF labelF slug label) st
    let (docs, st2) ← ensureLoop slugF labelF defaults rest st1
    Except.ok (doc :: docs, st2)

/-- articles.py ensure_categories: deduplicate by slug, then one
upsert (lookup followed by create or update) per unique candidate. -/
def ensure_categories (nfkd : String → String) (categories : List String)
    (slugF labelF : String) (defaults : Assoc) (st : St) :
    Except String (List Assoc × St) := do
  let uniq ← dedupCategories nfkd categories
  ensureLoop slugF labelF defaults uniq st

def isLookup : Call → Bool
  | .lookup _ _ => true
  | _ => false

def countLookups (t : List Call) : Nat := (t.filter isLookup).length

/-! ## Characterizing the category upsert loop -/

/-- The lookup performed by find_first_by_field, as a pure function of
the stored documents. -/
def findBySlug (docs : List Assoc) (f : String) (v : Val) : Option Assoc :=
  List.find? (fun d => decide (dictGet d f = some v)) docs

/-- Well-formed server collection: every document carries a numeric id
below the id counter, and ids are pairwise distinct. -/
def serverWf (st : St) : Prop :=
  (∀ d ∈ st.docs, ∃ m, dictGet d "id" = some (Val.natV m) ∧ m < st.nextId) ∧
    (List.map (fun d => dictGet d "id") st.docs).Nodup

/-- The REST calls one category candidate gives rise to, given the
documents visible when it is processed: one lookup, then an update
when a document with that slug exists (keyed by its id) and a create
otherwise. -/
def upsertCallsFor (docs0 : List Assoc) (slugF labelF : String) (defaults : Assoc)
    (u : String × String) : List Call :=
  Call.lookup slugF (Val.str u.1) ::
    (match findBySlug docs0 slugF (Val.str u.1) with
     | some d =>
       (match dictGet d "id" with
        | some i => [Call.update i (mkCategoryPayload defaults slugF labelF u.1 u.2)]
        | none => [])
     | none => [Call.create (mkCategoryPayload defaults slugF labelF u.1 u.2)])

theorem mkCategoryPayload_get_slug {defaults : Assoc} {slugF labelF : String}
    (hlf : labelF ≠ slugF) (s label : String) :
    dictGet (mkCategoryPayload defaults slugF labelF s label) slugF =
      some (Val.str s) := by
  unfold mkCategoryPayload
  rw [dictGet_dictSet_ne _ _ _ (fun hc => hlf hc.symm)]
  exact dictGet_dictSet_self _ _ _

theorem mkCategoryPayload_all_slug {defaults : Assoc} {slugF labelF : String}
    (hlf : labelF ≠ slugF) (s label : String) :
    ∀ kv ∈ mkCategoryPayload defaults slugF labelF s label,
      kv.1 = slugF → kv.2 = Val.str s := by
  intro kv hmem hk
  have h1 : kv ∈ dictSet defaults slugF (Val.str s) :=
    mem_dictSet_ne hmem (by rw [hk]; exact fun hc => hlf hc.symm)
  exact dictSet_keyvals h1 hk

theorem mkCategoryPayload_ex_slug (defaults : Assoc) {slugF labelF : String}
    (hlf : labelF ≠ slugF) (s label : String) :
    ∃ kv ∈ mkCategoryPayload defaults slugF labelF s label, kv.1 = slugF := by
  rcases dictSet_exists_key defaults slugF (Val.str s) with ⟨kv, hmem, hk⟩
  exact ⟨kv, mem_dictSet_of_mem_ne hmem (by rw [hk]; exact fun hc => hlf hc.symm) _, hk⟩

theorem mkCategoryPayload_no_id {defaults : Assoc} {slugF labelF : String}
    (hsf : slugF ≠ "id") (hlf : labelF ≠ "id")
    (hdef : dictGet defaults "id" = none) (s label : String) :
    ∀ kv ∈ mkCategoryPayload defaults slugF labelF s label, kv.1 ≠ "id" := by
  intro kv hmem hk
  have h1 : kv ∈ dictSet defaults slugF (Val.str s) :=
    mem_dictSet_ne hmem (by rw [hk]; exact fun hc => hlf hc.symm)
  have h2 : kv ∈ defaults :=
    mem_dictSet_ne h1 (by rw [hk]; exact fun hc => hsf hc.symm)
  exact dictGet_eq_none_iff.mp hdef kv h2 hk

theorem upsert_step_spec {slugF labelF : String} {defaults : Assoc}
    (hsf : slugF ≠ "id") (hlf1 : labelF ≠ slugF) (hlf2 : labelF ≠ "id")
    (hdef : dictGet defaults "id" = none)
    (s label : String) (st : St) (hwf : serverWf st) :
    ∃ doc st1,
      upsert_by_field slugF (Val.str s)
          (mkCategoryPayload defaults slugF labelF s label) st =
        Except.ok (doc, st1) ∧
      st1.trace = st.trace ++ upsertCallsFor st.docs slugF labelF defaults (s, label) ∧
      dictGet doc slugF = some (Val.str s) ∧
      serverWf st1 ∧
      (∀ v, v ≠ Val.str s → findBySlug st1.docs slugF v = findBySlug st.docs slugF v) := by
  have hff : find_first_by_field slugF (Val.str s) st =
      (findBySlug st.docs slugF (Val.str s),
        { st with trace := st.trace ++ [Call.lookup slugF (Val.str s)] }) := rfl
  have hnoid : ∀ kv ∈ mkCategoryPayload defaults slugF labelF s label, kv.1 ≠ "id" :=
    mkCategoryPayload_no_id hsf hlf2 hdef s label
  cases hfind : findBySlug st.docs slugF (Val.str s) with
  | none =>
    refine ⟨dictSet (mkCategoryPayload defaults slugF labelF s label) "id"
        (Val.natV st.nextId),
      { docs := st.docs ++ [dictSet (mkCategoryPayload defaults slugF labelF s label)
          "id" (Val.natV st.nextId)],
        nextId := st.nextId + 1,
        trace := (st.trace ++ [Call.lookup slugF (Val.str s)]) ++
          [Call.create (mkCategoryPayload defaults slugF labelF s label)] },
      ?_, ?_, ?_, ?_, ?_⟩
    · unfold upsert_by_field
      rw [hff, hfind]
      rfl
    · rw [upsertCallsFor, hfind]
      simp
    · rw [dictGet_dictSet_ne _ _ _ hsf]
      exact mkCategoryPayload_get_slug hlf1 s label
    · constructor
      · intro d hd
        rcases List.mem_append.mp hd with h1 | h1
        · rcases hwf.1 d h1 with ⟨m, hm1, hm2⟩
          exact ⟨m, hm1, Nat.lt_succ_of_lt hm2⟩
        · simp only [List.mem_singleton] at h1
          subst h1
          exact ⟨st.nextId, dictGet_dictSet_self _ _ _, Nat.lt_succ_self _⟩
      · show (List.map (fun d => dictGet d "id") (st.docs ++ [_])).Nodup
        rw [List.map_append]
        rw [List.nodup_append]
        refine ⟨hwf.2, List.nodup_singleton _, ?_⟩
        intro x hx hx2
        simp only [List.map_cons, List.map_nil, List.mem_singleton] at hx2
        rcases List.mem_map.mp hx with ⟨d, hd, hdx⟩
        rcases hwf.1 d hd with ⟨m, hm1, hm2⟩
        rw [← hdx, hm1] at hx2
        rw [dictGet_dictSet_self] at hx2
        simp only [Option.some.injEq, Val.natV.injEq] at hx2
        omega
    · intro v hv
      show findBySlug (st.docs ++ [_]) slugF v = findBySlug st.docs slugF v
      unfold findBySlug
      rw [List.find?_append]
      have hlast : List.find? (fun d => decide (dictGet d slugF = some v))
          [dictSet (mkCategoryPayload defaults slugF labelF s label) "id"
            (Val.natV st.nextId)] = none := by
        rw [List.find?_eq_none]
        intro x hx
        simp only [List.mem_singleton] at hx
        subst hx
        rw [decide_eq_true_eq]
        rw [dictGet_dictSet_ne _ _ _ hsf, mkCategoryPayload_get_slug hlf1 s label]
        simp only [Option.some.injEq]
        exact fun hc => hv hc.symm
      rw [hlast]
      simp
  | some d =>
    have hfind2 : List.find? (fun e => decide (dictGet e slugF = some (Val.str s)))
        st.docs = some d := hfind
    have hdmem : d ∈ st.docs := List.mem_of_find?_eq_some hfind2
    have hdslug : dictGet d slugF = some (Val.str s) := by
      have h := List.find?_some hfind2
      simp only [decide_eq_true_eq] at h
      exact h
    rcases hwf.1 d hdmem with ⟨m, hid, hm⟩
    have hupd : ∀ e ∈ st.docs,
        dictGet (if decide (dictGet e "id" = some (Val.natV m)) then
          dictMerge e (mkCategoryPayload defaults slugF labelF s label) else e) "id" =
        dictGet e "id" := by
      intro e _
      by_cases he : dictGet e "id" = some (Val.natV m)
      · rw [if_pos (decide_eq_true he)]
        exact dictGet_dictMerge_absent e hnoid
      · rw [if_neg (by simpa using he)]
    refine ⟨(match List.find? (fun e => decide (dictGet e "id" = some (Val.natV m)))
        st.docs with
      | some e => dictMerge e (mkCategoryPayload defaults slugF labelF s label)
      | none => mkCategoryPayload defaults slugF labelF s label),
      { docs := List.map (fun e => if decide (dictGet e "id" = some (Val.natV m)) then
          dictMerge e (mkCategoryPayload defaults slugF labelF s label) else e) st.docs,
        nextId := st.nextId,
        trace := (st.trace ++ [Call.lookup slugF (Val.str s)]) ++
          [Call.update (Val.natV m) (mkCategoryPayload defaults slugF labelF s label)] },
      ?_, ?_, ?_, ?_, ?_⟩
    · unfold upsert_by_field
      rw [hff, hfind]
      show (match dictGet d "id" with
        | none => Except.error _
        | some i => Except.ok (update_document i _ _)) = _
      rw [hid]
      rfl
    · rw [upsertCallsFor, hfind]
      simp only []
      rw [hid]
      simp
    · cases hf2 : List.find? (fun e => decide (dictGet e "id" = some (Val.natV m)))
          st.docs with
      | none => exact mkCategoryPayload_get_slug hlf1 s label
      | some e =>
        exact dictGet_dictMerge_const e (mkCategoryPayload_ex_slug defaults hlf1 s label)
          (mkCategoryPayload_all_slug hlf1 s label)
    · constructor
      · intro e2 he2
        rcases List.mem_map.mp he2 with ⟨e, he, hee⟩
        rcases hwf.1 e he with ⟨m2, hm21, hm22⟩
        refine ⟨m2, ?_, hm22⟩
        rw [← hee]
        rw [hupd e he]
        exact hm21
      · show (List.map (fun d => dictGet d "id") (List.map _ st.docs)).Nodup
        rw [List.map_map]
        have hcong : List.map ((fun d => dictGet d "id") ∘ (fun e =>
            if decide (dictGet e "id" = some (Val.natV m)) then
              dictMerge e (mkCategoryPayload defaults slugF labelF s label) else e))
            st.docs = List.map (fun d => dictGet d "id") st.docs := by
          apply List.map_congr_left
          intro e he
          exact hupd e he
        rw [hcong]
        exact hwf.2
    · intro v hv
      show findBySlug (List.map _ st.docs) slugF v = findBySlug st.docs slugF v
      unfold findBySlug
      apply find?_map_congr
      intro e he
      by_cases heid : dictGet e "id" = some (Val.natV m)
      · have hed : e = d := by
          have hinj := List.inj_on_of_nodup_map hwf.2
          exact hinj he hdmem (by rw [heid, hid])
        subst hed
        rw [if_pos (decide_eq_true heid)]
        have hm1 : dictGet (dictMerge e
            (mkCategoryPayload defaults slugF labelF s label)) slugF =
            some (Val.str s) :=
          dictGet_dictMerge_const e (mkCategoryPayload_ex_slug defaults hlf1 s label)
            (mkCategoryPayload_all_slug hlf1 s label)
        constructor
        · rw [hm1, hdslug]
        · intro hpe
          have hpe2 := of_decide_eq_true hpe
          rw [hdslug] at hpe2
          simp only [Option.some.injEq] at hpe2
          exact absurd hpe2.symm hv
      · rw [if_neg (by simpa using heid)]
        exact ⟨rfl, fun _ => rfl⟩


/-- The concatenation of per-candidate call blocks. -/
def callBlocks (docs0 : List Assoc) (slugF labelF : String) (defaults : Assoc) :
    List (String × String) → List Call
  | [] => []
  | u :: rest =>
    upsertCallsFor docs0 slugF labelF defaults u ++
      callBlocks docs0 slugF labelF defaults rest

theorem callBlocks_congr {docs1 docs2 : List Assoc} {slugF labelF : String}
    {defaults : Assoc} {l : List (String × String)}
    (h : ∀ u ∈ l, findBySlug docs1 slugF (Val.str u.1) =
      findBySlug docs2 slugF (Val.str u.1)) :
    callBlocks docs1 slugF labelF defaults l = callBlocks docs2 slugF labelF defaults l := by
  induction l with
  | nil => rfl
  | cons u rest ih =>
    show upsertCallsFor docs1 slugF labelF defaults u ++ _ =
      upsertCallsFor docs2 slugF labelF defaults u ++ _
    rw [upsertCallsFor, upsertCallsFor, h u (List.mem_cons_self _ _),
      ih (fun u2 hu2 => h u2 (List.mem_cons_of_mem _ hu2))]

theorem countLookups_upsertCallsFor (docs0 : List Assoc) (slugF labelF : String)
    (defaults : Assoc) (u : String × String) :
    countLookups (upsertCallsFor docs0 slugF labelF defaults u) = 1 := by
  rw [upsertCallsFor]
  cases findBySlug docs0 slugF (Val.str u.1) with
  | none => rfl
  | some d =>
    dsimp only
    cases dictGet d "id" with
    | none => rfl
    | some i => rfl

theorem countLookups_append (a b : List Call) :
    countLookups (a ++ b) = countLookups a + countLookups b := by
  unfold countLookups
  rw [List.filter_append, List.length_append]

theorem countLookups_callBlocks (docs0 : List Assoc) (slugF labelF : String)
    (defaults : Assoc) (l : List (String × String)) :
    countLookups (callBlocks docs0 slugF labelF defaults l) = l.length := by
  induction l with
  | nil => rfl
  | cons u rest ih =>
    show countLookups (upsertCallsFor docs0 slugF labelF defaults u ++ _) = _
    rw [countLookups_append, countLookups_upsertCallsFor, ih, List.length_cons]
    omega

theorem ensureLoop_spec {slugF labelF : String} {defaults : Assoc}
    (hsf : slugF ≠ "id") (hlf1 : labelF ≠ slugF) (hlf2 : labelF ≠ "id")
    (hdef : dictGet defaults "id" = none) (uniq : List (String × String)) :
    ∀ (st : St), serverWf st → (uniq.map Prod.fst).Nodup →
      ∃ res st1, ensureLoop slugF labelF defaults uniq st = Except.ok (res, st1) ∧
        st1.trace = st.trace ++ callBlocks st.docs slugF labelF defaults uniq ∧
        List.Forall₂ (fun doc u => dictGet doc slugF = some (Val.str (Prod.fst u)))
          res uniq ∧
        serverWf st1 ∧
        (∀ v, (∀ u ∈ uniq, Val.str u.1 ≠ v) →
          findBySlug st1.docs slugF v = findBySlug st.docs slugF v) := by
  induction uniq with
  | nil =>
    intro st hwf _
    exact ⟨[], st, rfl, by simp [callBlocks], List.Forall₂.nil, hwf, fun _ _ => rfl⟩
  | cons u rest ih =>
    rcases u with ⟨s, label⟩
    intro st hwf hnod
    rcases upsert_step_spec hsf hlf1 hlf2 hdef s label st hwf with
      ⟨doc, st1, hrun, htr, hslug, hwf1, hstab⟩
    have hnotin : s ∉ rest.map Prod.fst := (List.nodup_cons.mp hnod).1
    have hnod2 : (rest.map Prod.fst).Nodup := (List.nodup_cons.mp hnod).2
    rcases ih st1 hwf1 hnod2 with ⟨res2, st2, hrun2, htr2, hfa2, hwf2, hstab2⟩
    have hblocks : callBlocks st1.docs slugF labelF defaults rest =
        callBlocks st.docs slugF labelF defaults rest := by
      apply callBlocks_congr
      intro u2 hu2
      apply hstab
      intro hc
      apply hnotin
      have : u2.1 = s := by
        have := congrArg (fun v => match v with | Val.str t => t | _ => "") hc
        simpa using this
      rw [← this]
      exact List.mem_map_of_mem _ hu2
    refine ⟨doc :: res2, st2, ?_, ?_, List.Forall₂.cons hslug hfa2, hwf2, ?_⟩
    · show (do
        let (doc, st1) ←
          upsert_by_field slugF (Val.str s)
            (mkCategoryPayload defaults slugF labelF s label) st
        let (docs, st2) ← ensureLoop slugF labelF defaults rest st1
        Except.ok (doc :: docs, st2)) = Except.ok (doc :: res2, st2)
      rw [hrun]
      show (do
        let (docs, st2) ← ensureLoop slugF labelF defaults rest st1
        Except.ok (doc :: docs, st2)) = Except.ok (doc :: res2, st2)
      rw [hrun2]
      rfl
    · show st2.trace = st.trace ++ callBlocks st.docs slugF labelF defaults ((s, label) :: rest)
      rw [htr2, hblocks, htr]
      show _ = st.trace ++ (upsertCallsFor st.docs slugF labelF defaults (s, label) ++
        callBlocks st.docs slugF labelF defaults rest)
      rw [List.append_assoc]
    · intro v hvall
      rw [hstab2 v (fun u2 hu2 => hvall u2 (List.mem_cons_of_mem _ hu2))]
      exact hstab v (Ne.symm (hvall (s, label) (List.mem_cons_self _ _)))

theorem dedupStep_nodup {nfkd : String → String} {acc acc2 : List (String × String)}
    {name : String} (hacc : (acc.map Prod.fst).Nodup)
    (h : dedupStep nfkd acc name = Except.ok acc2) : (acc2.map Prod.fst).Nodup := by
  unfold dedupStep at h
  by_cases hemp : (pyStrip name).isEmpty
  · rw [if_pos hemp] at h
    exact Except.noConfusion h
  · rw [if_neg hemp] at h
    cases hs : slugify nfkd (pyStrip name) with
    | error e => rw [hs] at h; exact Except.noConfusion h
    | ok slug =>
      rw [hs] at h
      show (acc2.map Prod.fst).Nodup
      by_cases hany : List.any acc (fun kv => kv.1 == slug) = true
      · have h2 : acc2 = acc := by
          rw [show ((Except.ok slug : Except String String) >>= fun slug =>
            if List.any acc (fun kv => kv.1 == slug) then Except.ok acc
            else Except.ok (acc ++ [(slug, pyStrip name)])) =
              (if List.any acc (fun kv => kv.1 == slug) then Except.ok acc
               else Except.ok (acc ++ [(slug, pyStrip name)])) from rfl] at h
          rw [if_pos hany] at h
          simpa using h.symm
        rw [h2]
        exact hacc
      · have h2 : acc2 = acc ++ [(slug, pyStrip name)] := by
          rw [show ((Except.ok slug : Except String String) >>= fun slug =>
            if List.any acc (fun kv => kv.1 == slug) then Except.ok acc
            else Except.ok (acc ++ [(slug, pyStrip name)])) =
              (if List.any acc (fun kv => kv.1 == slug) then Except.ok acc
               else Except.ok (acc ++ [(slug, pyStrip name)])) from rfl] at h
          rw [if_neg hany] at h
          simpa using h.symm
        rw [h2, List.map_append, List.nodup_append]
        refine ⟨hacc, by simp, ?_⟩
        intro x hx hx2
        simp only [List.map_cons, List.map_nil, List.mem_singleton] at hx2
        subst hx2
        rcases List.mem_map.mp hx with ⟨kv, hkv, hkvx⟩
        apply hany
        exact List.any_eq_true.mpr ⟨kv, hkv, by rw [hkvx]; simp⟩

theorem dedupCategories_nodup {nfkd : String → String} {cats : List String}
    {uniq : List (String × String)}
    (h : dedupCategories nfkd cats = Except.ok uniq) : (uniq.map Prod.fst).Nodup := by
  unfold dedupCategories at h
  have main : ∀ (cs : List String) (acc : List (String × String)),
      (acc.map Prod.fst).Nodup → List.foldlM (dedupStep nfkd) acc cs = Except.ok uniq →
      (uniq.map Prod.fst).Nodup := by
    intro cs
    induction cs with
    | nil =>
      intro acc hacc hh
      have hh2 : (Except.ok acc : Except String (List (String × String))) =
        Except.ok uniq := hh
      injection hh2 with hh3
      rw [← hh3]
      exact hacc
    | cons name rest ih =>
      intro acc hacc hh
      rw [List.foldlM_cons] at hh
      cases hstep : dedupStep nfkd acc name with
      | error e => rw [hstep] at hh; exact Except.noConfusion hh
      | ok acc2 =>
        rw [hstep] at hh
        exact ih acc2 (dedupStep_nodup hacc hstep) hh
  exact main cats [] (by simp) h

/-- C2 (amended): for every list of category labels, ensure_categories
performs one lookup per deduplicated candidate, in first-seen order
(so the number of lookup calls equals the number of deduplicated
slugs, not one); each candidate then receives exactly one create call
when no record with its slug is present and exactly one update call
when such a record is present; and it returns one document per
deduplicated slug, in first-seen order, each carrying its slug. -/
theorem c2_ensure_categories_amended (nfkd : String → String)
    (categories : List String) (slugF labelF : String) (defaults : Assoc)
    (st : St) (res : List Assoc) (st1 : St)
    (hsf : slugF ≠ "id") (hlf1 : labelF ≠ slugF) (hlf2 : labelF ≠ "id")
    (hdef : dictGet defaults "id" = none) (hwf : serverWf st)
    (hok : ensure_categories nfkd categories slugF labelF defaults st =
      Except.ok (res, st1)) :
    ∃ uniq, dedupCategories nfkd categories = Except.ok uniq ∧
      st1.trace = st.trace ++ callBlocks st.docs slugF labelF defaults uniq ∧
      countLookups st1.trace = countLookups st.trace + uniq.length ∧
      List.Forall₂ (fun doc u => dictGet doc slugF = some (Val.str (Prod.fst u)))
        res uniq := by
  unfold ensure_categories at hok
  cases hd : dedupCategories nfkd categories with
  | error e => rw [hd] at hok; exact Except.noConfusion hok
  | ok uniq =>
    rw [hd] at hok
    have hok2 : ensureLoop slugF labelF defaults uniq st = Except.ok (res, st1) := hok
    rcases ensureLoop_spec hsf hlf1 hlf2 hdef uniq st hwf (dedupCategories_nodup hd)
      with ⟨res0, st0, hrun, htr, hfa, _, _⟩
    rw [hok2] at hrun
    have hres : res0 = res ∧ st0 = st1 := by
      have := hrun
      simp only [Except.ok.injEq, Prod.mk.injEq] at this
      exact ⟨this.1.symm, this.2.symm⟩
    rcases hres with ⟨h1, h2⟩
    subst h1
    subst h2
    refine ⟨uniq, rfl, htr, ?_, hfa⟩
    rw [htr, countLookups_append, countLookups_callBlocks]

/-- The documents returned by the concrete C2 witness run. -/
def ensureCatsWitnessRes : List Assoc :=
  [[("slug", Val.str "travel"), ("title", Val.str "Travel"), ("id", Val.natV 1)],
   [("slug", Val.str "guide"), ("title", Val.str "Guide"), ("id", Val.natV 2)]]

/-- The final client state of the concrete C2 witness run. -/
def ensureCatsWitnessSt1 : St :=
  { docs := ensureCatsWitnessRes,
    nextId := 3,
    trace := [Call.lookup "slug" (Val.str "travel"),
      Call.create [("slug", Val.str "travel"), ("title", Val.str "Travel")],
      Call.lookup "slug" (Val.str "guide"),
      Call.create [("slug", Val.str "guide"), ("title", Val.str "Guide")]] }

/-- Witness for C2 (amended) at the concrete labels Travel, Guide
(padded), Travel against an empty collection: two deduplicated
candidates, two lookup calls, two creates, two returned documents in
first-seen order. -/
theorem c2_amended_witness :
    ∃ uniq, dedupCategories id ["Travel", " Guide ", "Travel"] = Except.ok uniq ∧
      (ensureCatsWitnessSt1).trace = (⟨[], 1, []⟩ : St).trace ++
        callBlocks (⟨[], 1, []⟩ : St).docs "slug" "title" [] uniq ∧
      countLookups (ensureCatsWitnessSt1).trace =
        countLookups (⟨[], 1, []⟩ : St).trace + uniq.length ∧
      List.Forall₂ (fun doc u => dictGet doc "slug" = some (Val.str (Prod.fst u)))
        ensureCatsWitnessRes uniq :=
  c2_ensure_categories_amended id ["Travel", " Guide ", "Travel"] "slug" "title" []
    ⟨[], 1, []⟩ ensureCatsWitnessRes ensureCatsWitnessSt1
    (by decide) (by decide) (by decide) rfl
    ⟨fun d hd => absurd hd (List.not_mem_nil d), List.nodup_nil⟩ rfl

/-- C2 counterexample: ensuring two distinct category labels against
an empty store performs two lookup calls, not the single candidate-set
lookup the claim describes. -/
theorem c2_counterexample :
    (ensure_categories id ["Travel", "Guide"] "slug" "title" [] ⟨[], 1, []⟩).map
        (fun r => countLookups r.2.trace) = Except.ok 2 ∧ (2 : Nat) ≠ 1 :=
  ⟨rfl, by decide⟩

/-! ## The category block of upload_article_from_file (articles.py)

The block that replaces the list of category labels in the article
payload with a list of category ids, including the optional two-level
hierarchy controlled by category_parent_field and
category_skip_first. -/

/-- The parent-id extraction of the hierarchy branch: unwrap a
response wrapped in a doc key (when the wrapped value is not a
mapping, the subsequent isinstance check fails and the id is None),
then read id. -/
def parentIdOf (d : Assoc) : Option Val :=
  match dictGet d "doc" with
  | some (Val.dictV inner) => dictGet inner "id"
  | some _ => none
  | none => dictGet d "id"

/-- The id extraction applied to every returned category document:
unwrap a doc key only when the wrapped value is itself a mapping, then
read id; documents without an id are skipped. -/
def docIdOf (d : Assoc) : Option Val :=
  match dictGet d "doc" with
  | some (Val.dictV inner) => dictGet inner "id"
  | some _ => dictGet d "id"
  | none => dictGet d "id"

def extractIds (docs : List Assoc) : List Val := docs.filterMap docIdOf

theorem except_bind_ok {α β : Type} (a : α) (f : α → Except String β) :
    ((Except.ok a : Except String α) >>= f) = f a := rfl

/-- The guard of the hierarchy branch: a truthy parent field and more
labels than skip+1. -/
def hierCond (parentField : Option String) (skipFirst : Nat)
    (category_names : List String) : Bool :=
  (match parentField with
    | some pf => !pf.isEmpty
    | none => false) && decide (skipFirst + 1 < category_names.length)

/-- The hierarchy branch of the category block: ensure the label at
index skip as the parent, read its id, attach it (when truthy) to the
defaults used for the child at index skip+1, then ensure the labels
after index skip+2 flat; the document lists are concatenated parent,
child, remaining. -/
def hierarchicalCategories (nfkd : String → String) (category_names : List String)
    (parentField : Option String) (skipFirst : Nat) (slugF labelF : String)
    (defaults : Assoc) (st : St) : Except String (List Assoc × St) := do
  let pf := (match parentField with | some pf => pf | none => "")
  let parentName := category_names.getD skipFirst ""
  let (parentDocs, stA) ←
    ensure_categories nfkd [parentName] slugF labelF defaults st
  match parentDocs.head? with
  | none => Except.error "IndexError: list index out of range"
  | some parentDoc => do
    let parentId := parentIdOf parentDoc
    let childDefaults :=
      match parentId with
      | some i => if valTruthy i then dictSet defaults pf i else defaults
      | none => defaults
    let childName := category_names.getD (skipFirst + 1) ""
    let (childDocs, stB) ←
      ensure_categories nfkd [childName] slugF labelF childDefaults stA
    let remainingNames := category_names.drop (skipFirst + 2)
    if remainingNames.isEmpty then
      Except.ok (parentDocs ++ childDocs, stB)
    else do
      let (remainingDocs, stC) ←
        ensure_categories nfkd remainingNames slugF labelF defaults stB
      Except.ok (parentDocs ++ childDocs ++ remainingDocs, stC)

/-- The category-handling block of upload_article_from_file, applied
to the list of string labels found in the payload.  With a truthy
parent field and more than skip+1 labels it processes the label at
index skip as a parent, the label at index skip+1 as its child (the
parent id is added to the child defaults when truthy), and the labels
after index skip+2 as flat siblings; otherwise every label is
processed flat.  The returned list is the extracted ids of the
returned documents in order. -/
def processCategoriesBlock (nfkd : String → String) (category_names : List String)
    (parentField : Option String) (skipFirst : Nat) (slugF labelF : String)
    (defaults : Assoc) (st : St) : Except String (List Val × St) := do
  let (categoryDocs, st1) ←
    if hierCond parentField skipFirst category_names then
      hierarchicalCategories nfkd category_names parentField skipFirst
        slugF labelF defaults st
    else
      ensure_categories nfkd category_names slugF labelF defaults st
  Except.ok (extractIds categoryDocs, st1)

/-- The documents a create-only run of the category upsert loop
produces: each candidate payload with a fresh consecutive id. -/
def createdDocs (defaults : Assoc) (slugF labelF : String) :
    Nat → List (String × String) → List Assoc
  | _, [] => []
  | n, u :: rest =>
    dictSet (mkCategoryPayload defaults slugF labelF u.1 u.2) "id" (Val.natV n) ::
      createdDocs defaults slugF labelF (n + 1) rest

/-- The calls a create-only run of the category upsert loop issues:
one lookup and one create per candidate. -/
def createCalls (defaults : Assoc) (slugF labelF : String) :
    List (String × String) → List Call
  | [] => []
  | u :: rest =>
    Call.lookup slugF (Val.str u.1) ::
      Call.create (mkCategoryPayload defaults slugF labelF u.1 u.2) ::
      createCalls defaults slugF labelF rest

theorem createdDoc_get_slug {slugF labelF : String} (defaults : Assoc)
    (hsf : slugF ≠ "id") (hlf1 : labelF ≠ slugF) (s label : String) (n : Nat) :
    dictGet (dictSet (mkCategoryPayload defaults slugF labelF s label) "id"
      (Val.natV n)) slugF = some (Val.str s) := by
  rw [dictGet_dictSet_ne _ _ _ hsf]
  exact mkCategoryPayload_get_slug hlf1 s label

theorem mkCategoryPayload_no_key {defaults : Assoc} {slugF labelF k : String}
    (hk1 : slugF ≠ k) (hk2 : labelF ≠ k) (hdefk : dictGet defaults k = none)
    (s label : String) :
    dictGet (mkCategoryPayload defaults slugF labelF s label) k = none := by
  rw [dictGet_eq_none_iff]
  intro kv hmem hk
  have h1 : kv ∈ dictSet defaults slugF (Val.str s) :=
    mem_dictSet_ne hmem (by rw [hk]; exact fun hc => hk2 hc.symm)
  have h2 : kv ∈ defaults :=
    mem_dictSet_ne h1 (by rw [hk]; exact fun hc => hk1 hc.symm)
  exact dictGet_eq_none_iff.mp hdefk kv h2 hk

theorem findBySlug_createdDocs_none {defaults : Assoc} {slugF labelF : String}
    (hsf : slugF ≠ "id") (hlf1 : labelF ≠ slugF) {x : String}
    (uniq : List (String × String)) (n : Nat) (hx : x ∉ uniq.map Prod.fst) :
    findBySlug (createdDocs defaults slugF labelF n uniq) slugF (Val.str x) = none := by
  induction uniq generalizing n with
  | nil => rfl
  | cons u rest ih =>
    show List.find? _ (_ :: createdDocs defaults slugF labelF (n + 1) rest) = none
    rw [List.find?_cons_of_neg]
    · exact ih (n + 1) (fun hc => hx (List.mem_cons_of_mem _ hc))
    · rw [createdDoc_get_slug defaults hsf hlf1 u.1 u.2 n]
      simp only [decide_eq_true_eq, Option.some.injEq, Val.str.injEq]
      intro hc
      exact hx (by rw [← hc]; exact List.mem_map_of_mem _ (List.mem_cons_self _ _))

theorem extractIds_createdDocs {defaults : Assoc} {slugF labelF : String}
    (hsfd : slugF ≠ "doc") (hlfd : labelF ≠ "doc")
    (hdefdoc : dictGet defaults "doc" = none)
    (uniq : List (String × String)) (n : Nat) :
    extractIds (createdDocs defaults slugF labelF n uniq) =
      List.map Val.natV (List.range' n uniq.length) := by
  induction uniq generalizing n with
  | nil => rfl
  | cons u rest ih =>
    show List.filterMap docIdOf (_ :: createdDocs defaults slugF labelF (n + 1) rest) = _
    rw [List.filterMap_cons]
    have hnodoc : dictGet (dictSet (mkCategoryPayload defaults slugF labelF u.1 u.2)
        "id" (Val.natV n)) "doc" = none := by
      rw [dictGet_dictSet_ne _ _ _ (by decide)]
      exact mkCategoryPayload_no_key hsfd hlfd hdefdoc u.1 u.2
    have hid : docIdOf (dictSet (mkCategoryPayload defaults slugF labelF u.1 u.2)
        "id" (Val.natV n)) = some (Val.natV n) := by
      unfold docIdOf
      rw [hnodoc]
      exact dictGet_dictSet_self _ _ _
    rw [hid]
    show Val.natV n :: extractIds (createdDocs defaults slugF labelF (n + 1) rest) = _
    rw [ih (n + 1)]
    rw [List.length_cons, List.range'_succ, List.map_cons]

theorem filter_isLookup_createCalls (defaults : Assoc) (slugF labelF : String)
    (uniq : List (String × String)) :
    (createCalls defaults slugF labelF uniq).filter isLookup =
      uniq.map (fun u => Call.lookup slugF (Val.str u.1)) := by
  induction uniq with
  | nil => rfl
  | cons u rest ih =>
    show List.filter isLookup (_ :: _ :: createCalls defaults slugF labelF rest) = _
    rw [List.filter_cons_of_pos (by rfl), List.filter_cons_of_neg (by simp [isLookup])]
    rw [ih]
    rfl

/-- A run of the category upsert loop over candidates none of which
exist yet creates every candidate: the returned documents are the
payloads with fresh consecutive ids, the documents are appended to the
collection, and the trace grows by one lookup plus one create per
candidate. -/
theorem ensureLoop_creates {slugF labelF : String} {defaults : Assoc}
    (hsf : slugF ≠ "id") (hlf1 : labelF ≠ slugF) (uniq : List (String × String)) :
    ∀ (st : St), (uniq.map Prod.fst).Nodup →
      (∀ u ∈ uniq, findBySlug st.docs slugF (Val.str u.1) = none) →
      ensureLoop slugF labelF defaults uniq st =
        Except.ok (createdDocs defaults slugF labelF st.nextId uniq,
          { docs := st.docs ++ createdDocs defaults slugF labelF st.nextId uniq,
            nextId := st.nextId + uniq.length,
            trace := st.trace ++ createCalls defaults slugF labelF uniq }) := by
  induction uniq with
  | nil =>
    intro st _ _
    show Except.ok ([], st) = _
    simp [createdDocs, createCalls]
  | cons u rest ih =>
    rcases u with ⟨s, label⟩
    intro st hnod hnone
    have hff : find_first_by_field slugF (Val.str s) st =
        (findBySlug st.docs slugF (Val.str s),
          { st with trace := st.trace ++ [Call.lookup slugF (Val.str s)] }) := rfl
    have hfnone : findBySlug st.docs slugF (Val.str s) =
        none := hnone (s, label) (List.mem_cons_self _ _)
    have hrun : upsert_by_field slugF (Val.str s)
        (mkCategoryPayload defaults slugF labelF s label) st =
        Except.ok (dictSet (mkCategoryPayload defaults slugF labelF s label) "id"
            (Val.natV st.nextId),
          { docs := st.docs ++ [dictSet (mkCategoryPayload defaults slugF labelF
              s label) "id" (Val.natV st.nextId)],
            nextId := st.nextId + 1,
            trace := (st.trace ++ [Call.lookup slugF (Val.str s)]) ++
              [Call.create (mkCategoryPayload defaults slugF labelF s label)] }) := by
      unfold upsert_by_field
      rw [hff, hfnone]
      rfl
    show (do
      let (doc, st1) ←
        upsert_by_field slugF (Val.str s)
          (mkCategoryPayload defaults slugF labelF s label) st
      let (docs, st2) ← ensureLoop slugF labelF defaults rest st1
      Except.ok (doc :: docs, st2)) = _
    rw [hrun]
    show (do
      let (docs, st2) ← ensureLoop slugF labelF defaults rest
        { docs := st.docs ++ [dictSet (mkCategoryPayload defaults slugF labelF
            s label) "id" (Val.natV st.nextId)],
          nextId := st.nextId + 1,
          trace := (st.trace ++ [Call.lookup slugF (Val.str s)]) ++
            [Call.create (mkCategoryPayload defaults slugF labelF s label)] }
      Except.ok (dictSet (mkCategoryPayload defaults slugF labelF s label) "id"
        (Val.natV st.nextId) :: docs, st2)) = _
    have hnotin : s ∉ rest.map Prod.fst := (List.nodup_cons.mp hnod).1
    have hnone2 : ∀ u2 ∈ rest, findBySlug (st.docs ++
        [dictSet (mkCategoryPayload defaults slugF labelF s label) "id"
          (Val.natV st.nextId)]) slugF (Val.str u2.1) = none := by
      intro u2 hu2
      unfold findBySlug
      rw [List.find?_append]
      have h1 : List.find? (fun d => decide (dictGet d slugF = some (Val.str u2.1)))
          st.docs = none := hnone u2 (List.mem_cons_of_mem _ hu2)
      have h2 : List.find? (fun d => decide (dictGet d slugF = some (Val.str u2.1)))
          [dictSet (mkCategoryPayload defaults slugF labelF s label) "id"
            (Val.natV st.nextId)] = none := by
        rw [List.find?_eq_none]
        intro x hx
        simp only [List.mem_singleton] at hx
        subst hx
        rw [createdDoc_get_slug defaults hsf hlf1 s label st.nextId]
        simp only [decide_eq_true_eq, Option.some.injEq, Val.str.injEq]
        intro hc
        exact hnotin (by rw [hc]; exact List.mem_map_of_mem _ hu2)
      rw [h1, h2]
      rfl
    rw [ih _ ((List.nodup_cons.mp hnod).2) hnone2]
    show Except.ok _ = Except.ok _
    simp only [Except.ok.injEq, Prod.mk.injEq, St.mk.injEq]
    refine ⟨rfl, ?_, ?_, ?_⟩
    · show (st.docs ++ [_]) ++ createdDocs defaults slugF labelF (st.nextId + 1) rest =
        st.docs ++ createdDocs defaults slugF labelF st.nextId ((s, label) :: rest)
      rw [List.append_assoc]
      rfl
    · show st.nextId + 1 + rest.length = st.nextId + ((s, label) :: rest).length
      rw [List.length_cons]
      omega
    · show ((st.trace ++ [_]) ++ [_]) ++ createCalls defaults slugF labelF rest =
        st.trace ++ createCalls defaults slugF labelF ((s, label) :: rest)
      rw [List.append_assoc, List.append_assoc]
      rfl

/-- C3 counterexample: with labels Travel, Guide, Italy, a configured
parent field and skip count 2, the hierarchy branch does not trigger
(the list is not longer than skip+1), so all three labels are
resolved flat: the output id list has length 3 and the first traced
call looks up the slug travel — the labels below index 2 are not
dropped. -/
theorem c3_counterexample :
    (processCategoriesBlock id ["Travel", "Guide", "Italy"] (some "parent") 2
        "slug" "title" [] ⟨[], 1, []⟩).map
      (fun r => (r.1, r.2.trace.head?)) =
      Except.ok ([Val.natV 1, Val.natV 2, Val.natV 3],
        some (Call.lookup "slug" (Val.str "travel"))) := rfl

/-- C3 (amended): the hierarchy policy holds only when the label list
is longer than skip+1.  Under that extra hypothesis, starting from an
empty category collection: the label at index skip becomes the parent,
the label at index skip+1 becomes its child with the parent id written
into the child payload before its upsert, the labels after index
skip+2 resolve as flat siblings, the output id list is the parent id
followed by the child id followed by one id per deduplicated remaining
label (so labels below index skip contribute nothing), and the lookups
performed are exactly one per processed candidate, none for the
dropped labels.  (When the list has at most skip+1 labels, all labels
are resolved flat, as the counterexample shows.) -/
theorem c3_hierarchy_amended (nfkd : String → String) (names : List String)
    (pf : String) (skip : Nat) (slugF labelF : String) (defaults : Assoc)
    (n0 : Nat) (sP sC lP lC : String) (uniqR : List (String × String))
    (hpf0 : pf ≠ "") (hlen : skip + 1 < names.length)
    (hsf : slugF ≠ "id") (hlf1 : labelF ≠ slugF)
    (hsfd : slugF ≠ "doc") (hlfd : labelF ≠ "doc")
    (hpf2 : pf ≠ "doc") (hpf3 : slugF ≠ pf) (hpf4 : labelF ≠ pf)
    (hdefdoc : dictGet defaults "doc" = none) (hn0 : 1 ≤ n0)
    (hP : dedupCategories nfkd [names.getD skip ""] = Except.ok [(sP, lP)])
    (hC : dedupCategories nfkd [names.getD (skip + 1) ""] = Except.ok [(sC, lC)])
    (hR : dedupCategories nfkd (names.drop (skip + 2)) = Except.ok uniqR)
    (hdist : (sP :: sC :: uniqR.map Prod.fst).Nodup) :
    ∃ st1,
      processCategoriesBlock nfkd names (some pf) skip slugF labelF defaults
          ⟨[], n0, []⟩ =
        Except.ok (Val.natV n0 :: Val.natV (n0 + 1) ::
          List.map Val.natV (List.range' (n0 + 2) uniqR.length), st1) ∧
      st1.trace.filter isLookup =
        Call.lookup slugF (Val.str sP) :: Call.lookup slugF (Val.str sC) ::
          uniqR.map (fun u => Call.lookup slugF (Val.str u.1)) ∧
      Call.create (mkCategoryPayload (dictSet defaults pf (Val.natV n0))
        slugF labelF sC lC) ∈ st1.trace ∧
      dictGet (mkCategoryPayload (dictSet defaults pf (Val.natV n0))
        slugF labelF sC lC) pf = some (Val.natV n0) := by
  have hpfe : pf.isEmpty = false := by
    cases hh : pf.isEmpty
    · rfl
    · exact absurd (by simpa [String.isEmpty_iff] using hh) hpf0
  have hsCP : sC ≠ sP := by
    have := (List.nodup_cons.mp hdist).1
    intro hc
    exact this (by rw [← hc]; exact List.mem_cons_self _ _)
  have hnodR : (uniqR.map Prod.fst).Nodup :=
    (List.nodup_cons.mp (List.nodup_cons.mp hdist).2).2
  have hRP : ∀ u ∈ uniqR, u.1 ≠ sP := by
    intro u hu hc
    exact (List.nodup_cons.mp hdist).1
      (by rw [← hc]; exact List.mem_cons_of_mem _ (List.mem_map_of_mem _ hu))
  have hRC : ∀ u ∈ uniqR, u.1 ≠ sC := by
    intro u hu hc
    exact (List.nodup_cons.mp (List.nodup_cons.mp hdist).2).1
      (by rw [← hc]; exact List.mem_map_of_mem _ hu)
  -- the parent document and the state after the parent upsert
  have hEP : ensure_categories nfkd [names.getD skip ""] slugF labelF defaults
      ⟨[], n0, []⟩ =
      Except.ok ([dictSet (mkCategoryPayload defaults slugF labelF sP lP) "id"
          (Val.natV n0)],
        { docs := [dictSet (mkCategoryPayload defaults slugF labelF sP lP) "id"
            (Val.natV n0)],
          nextId := n0 + 1,
          trace := [Call.lookup slugF (Val.str sP),
            Call.create (mkCategoryPayload defaults slugF labelF sP lP)] }) := by
    unfold ensure_categories
    rw [hP]
    show ensureLoop slugF labelF defaults [(sP, lP)] ⟨[], n0, []⟩ = _
    rw [ensureLoop_creates hsf hlf1 [(sP, lP)] ⟨[], n0, []⟩ (by simp)
      (by intro u _; rfl)]
    rfl
  have hpdoc : dictGet (dictSet (mkCategoryPayload defaults slugF labelF sP lP) "id"
      (Val.natV n0)) "doc" = none := by
    rw [dictGet_dictSet_ne _ _ _ (by decide)]
    exact mkCategoryPayload_no_key hsfd hlfd hdefdoc sP lP
  have hpid : parentIdOf (dictSet (mkCategoryPayload defaults slugF labelF sP lP)
      "id" (Val.natV n0)) = some (Val.natV n0) := by
    unfold parentIdOf
    rw [hpdoc]
    exact dictGet_dictSet_self _ _ _
  have hpidtruthy : valTruthy (Val.natV n0) = true := by
    simp only [valTruthy, ne_eq, bne_iff_ne]
    omega
  have hcdefdoc : dictGet (dictSet defaults pf (Val.natV n0)) "doc" = none := by
    rw [dictGet_dictSet_ne _ _ _ (fun hc => hpf2 hc.symm)]
    exact hdefdoc
  -- the child document and the state after the child upsert
  have hEC : ensure_categories nfkd [names.getD (skip + 1) ""] slugF labelF
      (dictSet defaults pf (Val.natV n0))
      { docs := [dictSet (mkCategoryPayload defaults slugF labelF sP lP) "id"
          (Val.natV n0)],
        nextId := n0 + 1,
        trace := [Call.lookup slugF (Val.str sP),
          Call.create (mkCategoryPayload defaults slugF labelF sP lP)] } =
      Except.ok ([dictSet (mkCategoryPayload (dictSet defaults pf (Val.natV n0))
          slugF labelF sC lC) "id" (Val.natV (n0 + 1))],
        { docs := [dictSet (mkCategoryPayload defaults slugF labelF sP lP) "id"
            (Val.natV n0),
            dictSet (mkCategoryPayload (dictSet defaults pf (Val.natV n0))
              slugF labelF sC lC) "id" (Val.natV (n0 + 1))],
          nextId := n0 + 1 + 1,
          trace := [Call.lookup slugF (Val.str sP),
            Call.create (mkCategoryPayload defaults slugF labelF sP lP),
            Call.lookup slugF (Val.str sC),
            Call.create (mkCategoryPayload (dictSet defaults pf (Val.natV n0))
              slugF labelF sC lC)] }) := by
    unfold ensure_categories
    rw [hC]
    show ensureLoop slugF labelF (dictSet defaults pf (Val.natV n0)) [(sC, lC)] _ = _
    rw [ensureLoop_creates hsf hlf1 [(sC, lC)] _ (by simp) ?_]
    · rfl
    · intro u hu
      simp only [List.mem_singleton] at hu
      subst hu
      exact findBySlug_createdDocs_none hsf hlf1 [(sP, lP)] n0 (by simpa using hsCP)
  have hcid : docIdOf (dictSet (mkCategoryPayload (dictSet defaults pf (Val.natV n0))
      slugF labelF sC lC) "id" (Val.natV (n0 + 1))) = some (Val.natV (n0 + 1)) := by
    unfold docIdOf
    rw [dictGet_dictSet_ne _ _ _ (by decide)]
    rw [mkCategoryPayload_no_key hsfd hlfd hcdefdoc sC lC]
    exact dictGet_dictSet_self _ _ _
  have hpid2 : docIdOf (dictSet (mkCategoryPayload defaults slugF labelF sP lP)
      "id" (Val.natV n0)) = some (Val.natV n0) := by
    unfold docIdOf
    rw [hpdoc]
    exact dictGet_dictSet_self _ _ _
  have hgetpf : dictGet (mkCategoryPayload (dictSet defaults pf (Val.natV n0))
      slugF labelF sC lC) pf = some (Val.natV n0) := by
    unfold mkCategoryPayload
    rw [dictGet_dictSet_ne _ _ _ (fun hc => hpf4 hc.symm)]
    rw [dictGet_dictSet_ne _ _ _ (fun hc => hpf3 hc.symm)]
    exact dictGet_dictSet_self _ _ _
  have hcond : hierCond (some pf) skip names = true := by
    unfold hierCond
    simp [hpfe, hlen]
  have hids : extractIds
      ([dictSet (mkCategoryPayload defaults slugF labelF sP lP) "id" (Val.natV n0)] ++
        [dictSet (mkCategoryPayload (dictSet defaults pf (Val.natV n0)) slugF labelF
          sC lC) "id" (Val.natV (n0 + 1))] ++
        createdDocs defaults slugF labelF (n0 + 2) uniqR) =
      Val.natV n0 :: Val.natV (n0 + 1) ::
        List.map Val.natV (List.range' (n0 + 2) uniqR.length) := by
    unfold extractIds
    rw [List.filterMap_append, List.filterMap_append]
    rw [List.filterMap_cons, hpid2]
    rw [List.filterMap_cons, hcid]
    have h3 : List.filterMap docIdOf (createdDocs defaults slugF labelF (n0 + 2) uniqR)
        = List.map Val.natV (List.range' (n0 + 2) uniqR.length) :=
      extractIds_createdDocs hsfd hlfd hdefdoc uniqR (n0 + 2)
    rw [h3]
    rfl
  have hHier : hierarchicalCategories nfkd names (some pf) skip slugF labelF defaults
      ⟨[], n0, []⟩ =
      Except.ok
        ([dictSet (mkCategoryPayload defaults slugF labelF sP lP) "id" (Val.natV n0)] ++
          [dictSet (mkCategoryPayload (dictSet defaults pf (Val.natV n0)) slugF labelF
            sC lC) "id" (Val.natV (n0 + 1))] ++
          createdDocs defaults slugF labelF (n0 + 2) uniqR,
        { docs := [dictSet (mkCategoryPayload defaults slugF labelF sP lP) "id"
              (Val.natV n0),
            dictSet (mkCategoryPayload (dictSet defaults pf (Val.natV n0)) slugF
              labelF sC lC) "id" (Val.natV (n0 + 1))] ++
            createdDocs defaults slugF labelF (n0 + 2) uniqR,
          nextId := n0 + 2 + uniqR.length,
          trace := [Call.lookup slugF (Val.str sP),
            Call.create (mkCategoryPayload defaults slugF labelF sP lP),
            Call.lookup slugF (Val.str sC),
            Call.create (mkCategoryPayload (dictSet defaults pf (Val.natV n0))
              slugF labelF sC lC)] ++
            createCalls defaults slugF labelF uniqR }) := by
    cases hremE : (names.drop (skip + 2)).isEmpty with
    | true =>
      have hrnil : names.drop (skip + 2) = [] := by
        simpa [List.isEmpty_iff] using hremE
      have huniqR : uniqR = [] := by
        rw [hrnil] at hR
        have hR2 : (Except.ok [] : Except String (List (String × String))) =
          Except.ok uniqR := hR
        injection hR2 with hR3
        exact hR3.symm
      subst huniqR
      simp only [hierarchicalCategories, hEP, except_bind_ok, List.head?_cons,
        hpid, hpidtruthy, if_true, hEC, hrnil, List.isEmpty_nil]
      rfl
    | false =>
      have hnoneR : ∀ u ∈ uniqR, findBySlug
          [dictSet (mkCategoryPayload defaults slugF labelF sP lP) "id" (Val.natV n0),
            dictSet (mkCategoryPayload (dictSet defaults pf (Val.natV n0)) slugF
              labelF sC lC) "id" (Val.natV (n0 + 1))] slugF (Val.str u.1) = none := by
        intro u hu
        unfold findBySlug
        rw [List.find?_cons_of_neg, List.find?_cons_of_neg]
        · rfl
        · rw [createdDoc_get_slug (dictSet defaults pf (Val.natV n0)) hsf hlf1 sC lC
            (n0 + 1)]
          simp only [decide_eq_true_eq, Option.some.injEq, Val.str.injEq]
          exact fun hc => hRC u hu hc.symm
        · rw [createdDoc_get_slug defaults hsf hlf1 sP lP n0]
          simp only [decide_eq_true_eq, Option.some.injEq, Val.str.injEq]
          exact fun hc => hRP u hu hc.symm
      have hER : ensure_categories nfkd (names.drop (skip + 2)) slugF labelF defaults
          { docs := [dictSet (mkCategoryPayload defaults slugF labelF sP lP) "id"
                (Val.natV n0),
              dictSet (mkCategoryPayload (dictSet defaults pf (Val.natV n0)) slugF
                labelF sC lC) "id" (Val.natV (n0 + 1))],
            nextId := n0 + 1 + 1,
            trace := [Call.lookup slugF (Val.str sP),
              Call.create (mkCategoryPayload defaults slugF labelF sP lP),
              Call.lookup slugF (Val.str sC),
              Call.create (mkCategoryPayload (dictSet defaults pf (Val.natV n0))
                slugF labelF sC lC)] } =
          Except.ok (createdDocs defaults slugF labelF (n0 + 1 + 1) uniqR,
            { docs := [dictSet (mkCategoryPayload defaults slugF labelF sP lP) "id"
                  (Val.natV n0),
                dictSet (mkCategoryPayload (dictSet defaults pf (Val.natV n0)) slugF
                  labelF sC lC) "id" (Val.natV (n0 + 1))] ++
                createdDocs defaults slugF labelF (n0 + 1 + 1) uniqR,
              nextId := n0 + 1 + 1 + uniqR.length,
              trace := [Call.lookup slugF (Val.str sP),
                Call.create (mkCategoryPayload defaults slugF labelF sP lP),
                Call.lookup slugF (Val.str sC),
                Call.create (mkCategoryPayload (dictSet defaults pf (Val.natV n0))
                  slugF labelF sC lC)] ++
                createCalls defaults slugF labelF uniqR }) := by
        unfold ensure_categories
        rw [hR]
        show ensureLoop slugF labelF defaults uniqR _ = _
        rw [ensureLoop_creates hsf hlf1 uniqR _ hnodR hnoneR]
      simp only [hierarchicalCategories, hEP, except_bind_ok, List.head?_cons,
        hpid, hpidtruthy, if_true, hEC, hremE, Bool.false_eq_true, if_false, hER]
  refine ⟨(⟨[dictSet (mkCategoryPayload defaults slugF labelF sP lP) "id"
        (Val.natV n0),
      dictSet (mkCategoryPayload (dictSet defaults pf (Val.natV n0)) slugF
        labelF sC lC) "id" (Val.natV (n0 + 1))] ++
      createdDocs defaults slugF labelF (n0 + 2) uniqR,
    n0 + 2 + uniqR.length,
    [Call.lookup slugF (Val.str sP),
      Call.create (mkCategoryPayload defaults slugF labelF sP lP),
      Call.lookup slugF (Val.str sC),
      Call.create (mkCategoryPayload (dictSet defaults pf (Val.natV n0))
        slugF labelF sC lC)] ++
      createCalls defaults slugF labelF uniqR⟩ : St), ?_, ?_, ?_, hgetpf⟩
  · simp only [processCategoriesBlock, hcond, if_true, hHier, except_bind_ok]
    rw [hids]
  · show (List.filter isLookup ([Call.lookup slugF (Val.str sP),
      Call.create (mkCategoryPayload defaults slugF labelF sP lP),
      Call.lookup slugF (Val.str sC),
      Call.create (mkCategoryPayload (dictSet defaults pf (Val.natV n0))
        slugF labelF sC lC)] ++ createCalls defaults slugF labelF uniqR)) = _
    rw [List.filter_append, filter_isLookup_createCalls]
    rfl
  · show Call.create (mkCategoryPayload (dictSet defaults pf (Val.natV n0))
      slugF labelF sC lC) ∈ _ ++ createCalls defaults slugF labelF uniqR
    apply List.mem_append.mpr
    apply Or.inl
    simp

/-- Witness for C3 (amended) at the concrete labels Travel, Guide,
Italy, Bologna, Food with skip 2 and parent field: the output id list
has length 3 (Italy, Bologna with parent, Food), the lookups are for
the slugs italy, bologna and food only (Travel and Guide are dropped),
and the child create call carries the parent id. -/
theorem c3_amended_witness :
    ∃ st1,
      processCategoriesBlock id ["Travel", "Guide", "Italy", "Bologna", "Food"]
          (some "parent") 2 "slug" "title" [] ⟨[], 1, []⟩ =
        Except.ok (Val.natV 1 :: Val.natV (1 + 1) ::
          List.map Val.natV (List.range' (1 + 2) [("food", "Food")].length), st1) ∧
      st1.trace.filter isLookup =
        Call.lookup "slug" (Val.str "italy") :: Call.lookup "slug" (Val.str "bologna") ::
          [("food", "Food")].map (fun u => Call.lookup "slug" (Val.str u.1)) ∧
      Call.create (mkCategoryPayload (dictSet [] "parent" (Val.natV 1))
        "slug" "title" "bologna" "Bologna") ∈ st1.trace ∧
      dictGet (mkCategoryPayload (dictSet [] "parent" (Val.natV 1))
        "slug" "title" "bologna" "Bologna") "parent" = some (Val.natV 1) :=
  c3_hierarchy_amended id ["Travel", "Guide", "Italy", "Bologna", "Food"]
    "parent" 2 "slug" "title" [] 1 "italy" "bologna" "Italy" "Bologna"
    [("food", "Food")] (by decide) (by decide) (by decide) (by decide) (by decide)
    (by decide) (by decide) (by decide) (by decide) rfl (by decide) rfl rfl rfl
    (by decide)

/-! ## The bulk deletion sweeper (clean_payloadcms.py delete_all_documents)

The sweeper lists the first limit documents, deletes each by id
(documents without an id are skipped; per-document delete failures are
caught), and stops when a batch is empty or smaller than the limit.
Delete failures of the remote store are modelled by the oracle fails;
the loop itself is given fuel, with none meaning the Python loop is
still running after that many iterations. -/

def isListCall : Call → Bool
  | .listDocs => true
  | _ => false

def countListCalls (t : List Call) : Nat := (t.filter isListCall).length

/-- The list call of each sweeper iteration: the store returns the
first limit documents. -/
def list_documents_limited (limit : Nat) (st : St) : List Assoc × St :=
  (st.docs.take limit, { st with trace := st.trace ++ [Call.listDocs] })

/-- The store deletes the first document carrying the id. -/
def removeFirstById (docs : List Assoc) (i : Val) : List Assoc :=
  match docs with
  | [] => []
  | d :: rest => if dictGet d "id" = some i then rest else d :: removeFirstById rest i

/-- payload_client delete_document as used by the sweeper: the store
removes the document, or the call raises (fails oracle), which the
sweeper catches. -/
def delete_document (fails : Val → Bool) (i : Val) (st : St) : Option St :=
  if fails i then none
  else some { st with docs := removeFirstById st.docs i,
                      trace := st.trace ++ [Call.delete i] }

/-- The inner for-loop of delete_all_documents over one fetched batch:
skip documents without an id, attempt a delete otherwise, counting
only successful deletions. -/
def sweepBatch (fails : Val → Bool) : List Assoc → St → Nat → St × Nat
  | [], st, deleted => (st, deleted)
  | d :: rest, st, deleted =>
    match dictGet d "id" with
    | none => sweepBatch fails rest st deleted
    | some i =>
      match delete_document fails i st with
      | none => sweepBatch fails rest st deleted
      | some st2 => sweepBatch fails rest st2 (deleted + 1)

/-- clean_payloadcms.py delete_all_documents, with fuel: none means
the while-loop has not terminated within the given number of
iterations. -/
def delete_all_documents (fails : Val → Bool) (limit : Nat) :
    Nat → St → Nat → Option (Nat × St)
  | 0, _, _ => none
  | fuel + 1, st, deleted =>
    let (docs, st1) := list_documents_limited limit st
    if docs.isEmpty then some (deleted, st1)
    else
      let (st2, deleted2) := sweepBatch fails docs st1 deleted
      if docs.length < limit then some (deleted2, st2)
      else delete_all_documents fails limit fuel st2 deleted2

theorem sweepBatch_deletes_all (fails : Val → Bool) :
    ∀ (batch : List Assoc) (st : St) (k : Nat), st.docs = batch →
      (∀ d ∈ batch, ∃ i, dictGet d "id" = some i ∧ fails i = false) →
      (sweepBatch fails batch st k).1.docs = [] ∧
        (sweepBatch fails batch st k).2 = k + batch.length ∧
        countListCalls (sweepBatch fails batch st k).1.trace =
          countListCalls st.trace ∧
        (sweepBatch fails batch st k).1.nextId = st.nextId := by
  intro batch
  induction batch with
  | nil =>
    intro st k hdocs _
    exact ⟨hdocs, rfl, rfl, rfl⟩
  | cons d rest ih =>
    intro st k hdocs hids
    rcases hids d (List.mem_cons_self _ _) with ⟨i, hi, hfi⟩
    show (sweepBatch fails (d :: rest) st k).1.docs = [] ∧ _
    have hstep : sweepBatch fails (d :: rest) st k =
        sweepBatch fails rest
          { st with docs := removeFirstById st.docs i,
                    trace := st.trace ++ [Call.delete i] } (k + 1) := by
      show (match dictGet d "id" with
        | none => sweepBatch fails rest st k
        | some i =>
          match delete_document fails i st with
          | none => sweepBatch fails rest st k
          | some st2 => sweepBatch fails rest st2 (k + 1)) = _
      rw [hi]
      show (match delete_document fails i st with
        | none => sweepBatch fails rest st k
        | some st2 => sweepBatch fails rest st2 (k + 1)) = _
      unfold delete_document
      rw [if_neg (by simp [hfi])]
    have hrem : removeFirstById st.docs i = rest := by
      rw [hdocs]
      show (if dictGet d "id" = some i then rest else _) = rest
      rw [if_pos hi]
    rw [hstep, hrem]
    have hih := ih { st with docs := rest, trace := st.trace ++ [Call.delete i] }
      (k + 1) rfl (fun e he => hids e (List.mem_cons_of_mem _ he))
    refine ⟨hih.1, ?_, ?_, hih.2.2.2⟩
    · rw [hih.2.1, List.length_cons]
      omega
    · rw [hih.2.2.1]
      unfold countListCalls
      rw [List.filter_append]
      simp [isListCall]

theorem delete_all_documents_succ (fails : Val → Bool) (limit fuel : Nat) (st : St)
    (deleted : Nat) :
    delete_all_documents fails limit (fuel + 1) st deleted =
      (if (st.docs.take limit).isEmpty then
        some (deleted, { st with trace := st.trace ++ [Call.listDocs] })
      else
        if (st.docs.take limit).length < limit then
          some ((sweepBatch fails (st.docs.take limit)
              { st with trace := st.trace ++ [Call.listDocs] } deleted).2,
            (sweepBatch fails (st.docs.take limit)
              { st with trace := st.trace ++ [Call.listDocs] } deleted).1)
        else delete_all_documents fails limit fuel
          (sweepBatch fails (st.docs.take limit)
            { st with trace := st.trace ++ [Call.listDocs] } deleted).1
          (sweepBatch fails (st.docs.take limit)
            { st with trace := st.trace ++ [Call.listDocs] } deleted).2) := rfl

/-- C4: for a collection holding exactly limit documents, all
deletable, the sweeper issues exactly two list calls — the first
returning the full batch, the second returning an empty batch — and
deletes all limit documents, leaving the collection empty.  Two
iterations of fuel suffice, confirming the loop then stops. -/
theorem c4_sweeper_two_list_calls (fails : Val → Bool) (limit : Nat) (st : St)
    (hlim : 0 < limit) (hlen : st.docs.length = limit)
    (hids : ∀ d ∈ st.docs, ∃ i, dictGet d "id" = some i ∧ fails i = false) :
    ∃ st2, delete_all_documents fails limit 2 st 0 = some (limit, st2) ∧
      st2.docs = [] ∧
      countListCalls st2.trace = countListCalls st.trace + 2 := by
  have htake : st.docs.take limit = st.docs := by
    rw [← hlen]
    exact List.take_length st.docs
  have hne : st.docs.isEmpty = false := by
    rw [List.isEmpty_eq_false]
    intro hc
    rw [hc] at hlen
    simp at hlen
    omega
  have hsw := sweepBatch_deletes_all fails st.docs
    { st with trace := st.trace ++ [Call.listDocs] } 0 rfl hids
  set S := sweepBatch fails st.docs { st with trace := st.trace ++ [Call.listDocs] } 0
    with hS
  refine ⟨{ S.1 with trace := S.1.trace ++ [Call.listDocs] }, ?_, hsw.1, ?_⟩
  · rw [delete_all_documents_succ]
    rw [htake, hne]
    rw [if_neg (by simp)]
    rw [if_neg (by rw [hlen]; omega)]
    rw [← hS]
    rw [delete_all_documents_succ]
    rw [hsw.1]
    show (if (List.take limit ([] : List Assoc)).isEmpty = true then _ else _) = _
    rw [if_pos (by simp)]
    rw [hsw.2.1, hlen]
    simp [hsw.1]
  · show countListCalls (S.1.trace ++ [Call.listDocs]) = countListCalls st.trace + 2
    unfold countListCalls
    rw [List.filter_append, List.length_append]
    have h1 := hsw.2.2.1
    unfold countListCalls at h1
    rw [h1]
    show (List.filter isListCall (st.trace ++ [Call.listDocs])).length + _ = _
    rw [List.filter_append, List.length_append]
    simp [isListCall]

/-- Witness for C4: one document with id 7, limit 1: two list calls,
one deletion, empty collection afterwards. -/
theorem c4_witness :
    ∃ st2, delete_all_documents (fun _ => false) 1 2
        ⟨[[("id", Val.natV 7)]], 8, []⟩ 0 = some (1, st2) ∧
      st2.docs = [] ∧
      countListCalls st2.trace =
        countListCalls (⟨[[("id", Val.natV 7)]], 8, []⟩ : St).trace + 2 :=
  c4_sweeper_two_list_calls (fun _ => false) 1 ⟨[[("id", Val.natV 7)]], 8, []⟩
    (by decide) (by decide)
    (fun d hd => by
      simp only [List.mem_singleton] at hd
      exact ⟨Val.natV 7, by rw [hd]; rfl, rfl⟩)

/-- A batch in which no document can be deleted: every document either
lacks an id or its delete call fails (and is caught). -/
def undeletableBatch (fails : Val → Bool) (batch : List Assoc) : Prop :=
  ∀ d ∈ batch, dictGet d "id" = none ∨ ∃ i, dictGet d "id" = some i ∧ fails i = true

theorem sweepBatch_noop (fails : Val → Bool) :
    ∀ (batch : List Assoc) (st : St) (k : Nat), undeletableBatch fails batch →
      sweepBatch fails batch st k = (st, k) := by
  intro batch
  induction batch with
  | nil => intro st k _; rfl
  | cons d rest ih =>
    intro st k hund
    show (match dictGet d "id" with
      | none => sweepBatch fails rest st k
      | some i =>
        match delete_document fails i st with
        | none => sweepBatch fails rest st k
        | some st2 => sweepBatch fails rest st2 (k + 1)) = _
    rcases hund d (List.mem_cons_self _ _) with hnone | ⟨i, hi, hfi⟩
    · rw [hnone]
      exact ih st k (fun e he => hund e (List.mem_cons_of_mem _ he))
    · rw [hi]
      show (match delete_document fails i st with
        | none => sweepBatch fails rest st k
        | some st2 => sweepBatch fails rest st2 (k + 1)) = _
      unfold delete_document
      rw [if_pos hfi]
      exact ih st k (fun e he => hund e (List.mem_cons_of_mem _ he))

/-- C10: the sweeper terminates only when full batches shrink.  When
the fetched batch has exactly the limit's size and none of its
documents can be deleted — each lacks an id or its delete raises and
is caught — the loop re-fetches the same page forever: for every
amount of fuel the run is still going. -/
theorem c10_sweeper_divergence (fails : Val → Bool) (limit : Nat)
    (fuel deleted : Nat) (st : St)
    (hlim : 0 < limit) (hfull : limit ≤ st.docs.length)
    (hund : undeletableBatch fails (st.docs.take limit)) :
    delete_all_documents fails limit fuel st deleted = none := by
  induction fuel generalizing st deleted with
  | zero => rfl
  | succ fuel ih =>
    rw [delete_all_documents_succ]
    have hlentake : (st.docs.take limit).length = limit := by
      rw [List.length_take]
      omega
    have hne : (st.docs.take limit).isEmpty = false := by
      rw [List.isEmpty_eq_false]
      intro hc
      rw [hc] at hlentake
      simp at hlentake
      omega
    rw [hne]
    rw [if_neg (by simp)]
    rw [if_neg (by rw [hlentake]; omega)]
    rw [sweepBatch_noop fails (st.docs.take limit)
      { st with trace := st.trace ++ [Call.listDocs] } deleted hund]
    exact ih deleted { st with trace := st.trace ++ [Call.listDocs] } hfull hund

/-- Witness for C10: limit 1, a single document with no id, fuel 5:
the sweeper has not terminated. -/
theorem c10_witness :
    delete_all_documents (fun _ => false) 1 5 ⟨[[("title", Val.str "x")]], 1, []⟩ 0 =
      none :=
  c10_sweeper_divergence (fun _ => false) 1 5 0 ⟨[[("title", Val.str "x")]], 1, []⟩
    (by decide) (by decide)
    (fun d hd => by
      simp only [List.take, List.mem_singleton] at hd
      exact Or.inl (by rw [hd]; rfl))

/-! ## Featured-image resolution (articles.py ensure_featured_image)

The local filesystem resolution of the featured-image path (literal
path, then media root, then article directory) is external I/O; it
enters as the resolve oracle, mapping the stripped field value to the
resolved file's name and stem, or none when no candidate exists
(FileNotFoundError). -/

/-- payload_client.py upload_media: the store creates a media document
from the submitted form fields, recording the uploaded file's name
under its filename field, and assigns a fresh id. -/
def upload_media (filenameField : String) (name : String) (payload : Assoc)
    (st : St) : Assoc × St :=
  let doc := dictSet (dictSet payload filenameField (Val.str name)) "id"
    (Val.natV st.nextId)
  (doc,
   { docs := st.docs ++ [doc], nextId := st.nextId + 1,
     trace := st.trace ++ [Call.upload name payload] })

/-- articles.py text_to_lexical: the fixed Lexical wrapper put around
a plain-text caption. -/
def text_to_lexical (text : String) : Val :=
  Val.dictV [("root", Val.dictV [
    ("type", Val.str "root"),
    ("format", Val.str ""),
    ("indent", Val.natV 0),
    ("version", Val.natV 1),
    ("children", Val.listV [
      Val.dictV [
        ("type", Val.str "paragraph"),
        ("format", Val.str ""),
        ("indent", Val.natV 0),
        ("version", Val.natV 1),
        ("children", Val.listV [
          Val.dictV [
            ("mode", Val.str "normal"),
            ("text", Val.str text),
            ("type", Val.str "text"),
            ("style", Val.str ""),
            ("detail", Val.natV 0),
            ("format", Val.natV 0),
            ("version", Val.natV 1)]]),
        ("direction", Val.nullV),
        ("textFormat", Val.natV 0),
        ("textStyle", Val.str "")]]),
    ("direction", Val.nullV)])]

def isAsciiAlpha (c : Char) : Bool :=
  (65 ≤ c.toNat && c.toNat ≤ 90) || (97 ≤ c.toNat && c.toNat ≤ 122)

def asciiUpper (c : Char) : Char :=
  if 97 ≤ c.toNat && c.toNat ≤ 122 then Char.ofNat (c.toNat - 32) else c

/-- Python str.title over ASCII letters: uppercase a letter starting a
run of letters, lowercase the rest. -/
def pyTitleAux : Bool → List Char → List Char
  | _, [] => []
  | prevCased, c :: rest =>
    if isAsciiAlpha c then
      (if prevCased then asciiLower c else asciiUpper c) :: pyTitleAux true rest
    else c :: pyTitleAux false rest

/-- The filename-derived fallback for alt and caption: drop the
extension (the stem is the input), replace hyphens and underscores
with spaces, title-case. -/
def readableName (stem : String) : String :=
  String.mk (pyTitleAux false
    (stem.data.map (fun c => if c == '-' || c == '_' then ' ' else c)))

def stringLowerAscii (s : String) : String := String.mk (s.data.map asciiLower)

/-- The partition of media_defaults: keys lowering to alt or caption
go to the alt/caption payload under their lowercase name, everything
else to the upload form fields. -/
def splitMediaDefaults (mediaDefaults : Assoc) : Assoc × Assoc :=
  mediaDefaults.foldl
    (fun (acc : Assoc × Assoc) kv =>
      if stringLowerAscii kv.1 == "alt" || stringLowerAscii kv.1 == "caption" then
        (acc.1, dictSet acc.2 (stringLowerAscii kv.1) kv.2)
      else (dictSet acc.1 kv.1 kv.2, acc.2))
    ([], [])

def companionSuffixes : List String := ["alt", "caption", "Alt", "Caption"]

/-- Transfer companion fields from the article payload into the
alt/caption payload, keyed by the lowercased suffix; processed in the
order alt, caption, Alt, Caption, so a capitalized spelling wins. -/
def applyCompanions (articlePayload : Assoc) (ffield : String) (altCap : Assoc) :
    Assoc :=
  companionSuffixes.foldl
    (fun ac suffix =>
      match dictGet articlePayload (ffield ++ suffix) with
      | some v => dictSet ac (stringLowerAscii suffix) v
      | none => ac)
    altCap

/-- The filename fallback: fill alt and caption when missing or falsy. -/
def fillFallbacks (altCap : Assoc) (stem : String) : Assoc :=
  let altCap1 :=
    if (match dictGet altCap "alt" with
        | some v => !valTruthy v
        | none => true) then
      dictSet altCap "alt" (Val.str (readableName stem))
    else altCap
  if (match dictGet altCap1 "caption" with
      | some v => !valTruthy v
      | none => true) then
    dictSet altCap1 "caption" (Val.str (readableName stem))
  else altCap1

/-- Convert a plain-string caption to the Lexical wrapper before the
follow-up update. -/
def lexicalizeCaption (altCap : Assoc) : Assoc :=
  match dictGet altCap "caption" with
  | some (Val.str s) => dictSet altCap "caption" (text_to_lexical s)
  | _ => altCap

/-- The final alt/caption payload of the absent-media path. -/
def altCapFinal (mediaDefaults articlePayload : Assoc) (ffield stem : String) :
    Assoc :=
  lexicalizeCaption (fillFallbacks
    (applyCompanions articlePayload ffield (splitMediaDefaults mediaDefaults).2) stem)

/-- Unwrap a response wrapped in a doc key when the wrapped value is a
mapping (unchanged otherwise). -/
def unwrapDoc (d : Assoc) : Assoc :=
  match dictGet d "doc" with
  | some (Val.dictV inner) => inner
  | _ => d

/-- articles.py ensure_featured_image: return non-string or blank
values unchanged; resolve the path; reuse an existing media record
found by filename; otherwise upload the file and attach alt/caption
through a follow-up update. -/
def ensure_featured_image (resolve : String → Option (String × String))
    (featured_value : Val) (filenameField : String) (mediaDefaults : Assoc)
    (articlePayload : Assoc) (ffield : String) (st : St) :
    Except String (Val × St) :=
  match featured_value with
  | Val.str sv =>
    if (pyStrip sv).isEmpty then Except.ok (featured_value, st)
    else
      match resolve (pyStrip sv) with
      | none => Except.error "FileNotFoundError: unable to locate featured image"
      | some (name, stem) =>
        match find_first_by_field filenameField (Val.str name) st with
        | (some existing, st1) =>
          (match dictGet (unwrapDoc existing) "id" with
          | none => Except.error "Existing media document is missing an id"
          | some i => Except.ok (i, st1))
        | (none, st1) =>
          let uploadPayload := (splitMediaDefaults mediaDefaults).1
          let altCap := fillFallbacks
            (applyCompanions articlePayload ffield (splitMediaDefaults mediaDefaults).2)
            stem
          let (docU, st2) := upload_media filenameField name uploadPayload st1
          match dictGet (unwrapDoc docU) "id" with
          | none => Except.error "Uploaded media document is missing an id"
          | some mediaId =>
            if altCap.isEmpty then Except.ok (mediaId, st2)
            else
              let (_, st3) := update_document mediaId (lexicalizeCaption altCap) st2
              Except.ok (mediaId, st3)
  | _ => Except.ok (featured_value, st)

theorem dictGet_alt_of_set_caption (d : Assoc) (v : Val) :
    dictGet (dictSet d "caption" v) "alt" = dictGet d "alt" :=
  dictGet_dictSet_ne _ _ _ (by decide)

theorem dictGet_caption_of_set_alt (d : Assoc) (v : Val) :
    dictGet (dictSet d "alt" v) "caption" = dictGet d "caption" :=
  dictGet_dictSet_ne _ _ _ (by decide)

theorem lowerAscii_alt : stringLowerAscii "alt" = "alt" := rfl

theorem lowerAscii_Alt : stringLowerAscii "Alt" = "alt" := rfl

theorem lowerAscii_caption : stringLowerAscii "caption" = "caption" := rfl

theorem lowerAscii_Caption : stringLowerAscii "Caption" = "caption" := rfl

theorem applyCompanions_alt (p : Assoc) (f : String) (ac : Assoc) :
    dictGet (applyCompanions p f ac) "alt" =
      (match dictGet p (f ++ "Alt") with
       | some w => some w
       | none =>
         match dictGet p (f ++ "alt") with
         | some w => some w
         | none => dictGet ac "alt") := by
  cases ha : dictGet p (f ++ "alt") <;> cases hc : dictGet p (f ++ "caption") <;>
    cases hA : dictGet p (f ++ "Alt") <;> cases hC : dictGet p (f ++ "Caption") <;>
    simp only [applyCompanions, companionSuffixes, List.foldl, ha, hc, hA, hC,
      lowerAscii_alt, lowerAscii_Alt, lowerAscii_caption, lowerAscii_Caption,
      dictGet_alt_of_set_caption, dictGet_dictSet_self]

theorem applyCompanions_caption (p : Assoc) (f : String) (ac : Assoc) :
    dictGet (applyCompanions p f ac) "caption" =
      (match dictGet p (f ++ "Caption") with
       | some w => some w
       | none =>
         match dictGet p (f ++ "caption") with
         | some w => some w
         | none => dictGet ac "caption") := by
  cases ha : dictGet p (f ++ "alt") <;> cases hc : dictGet p (f ++ "caption") <;>
    cases hA : dictGet p (f ++ "Alt") <;> cases hC : dictGet p (f ++ "Caption") <;>
    simp only [applyCompanions, companionSuffixes, List.foldl, ha, hc, hA, hC,
      lowerAscii_alt, lowerAscii_Alt, lowerAscii_caption, lowerAscii_Caption,
      dictGet_caption_of_set_alt, dictGet_dictSet_self]

theorem dictGet_fill_step (d : Assoc) (key other : String) (w : Val)
    (hne : other ≠ key) :
    dictGet (if (match dictGet d key with
        | some v => !valTruthy v
        | none => true) then dictSet d key w else d) other = dictGet d other := by
  by_cases h : (match dictGet d key with
    | some v => !valTruthy v
    | none => true) = true
  · rw [if_pos h, dictGet_dictSet_ne _ _ _ hne]
  · rw [if_neg h]

theorem dictGet_fill_step_self (d : Assoc) (key : String) (w : Val) :
    dictGet (if (match dictGet d key with
        | some v => !valTruthy v
        | none => true) then dictSet d key w else d) key =
      (match dictGet d key with
       | some v => if valTruthy v then some v else some w
       | none => some w) := by
  cases hg : dictGet d key with
  | none =>
    show dictGet (dictSet d key w) key = some w
    exact dictGet_dictSet_self _ _ _
  | some v =>
    show dictGet (if (!valTruthy v) = true then dictSet d key w else d) key =
      (if valTruthy v = true then some v else some w)
    cases hv : valTruthy v with
    | false =>
      rw [if_pos (show (!false) = true from rfl), dictGet_dictSet_self,
        if_neg Bool.false_ne_true]
    | true =>
      rw [if_neg (fun h => Bool.noConfusion h), hg, if_pos rfl]

theorem fillFallbacks_alt (ac : Assoc) (stem : String) :
    dictGet (fillFallbacks ac stem) "alt" =
      (match dictGet ac "alt" with
       | some v => if valTruthy v then some v else some (Val.str (readableName stem))
       | none => some (Val.str (readableName stem))) := by
  have h2 := dictGet_fill_step
    (if (match dictGet ac "alt" with
        | some v => !valTruthy v
        | none => true) then dictSet ac "alt" (Val.str (readableName stem)) else ac)
    "caption" "alt" (Val.str (readableName stem)) (by decide)
  have h1 := dictGet_fill_step_self ac "alt" (Val.str (readableName stem))
  exact h2.trans h1

theorem fillFallbacks_caption (ac : Assoc) (stem : String) :
    dictGet (fillFallbacks ac stem) "caption" =
      (match dictGet ac "caption" with
       | some v => if valTruthy v then some v else some (Val.str (readableName stem))
       | none => some (Val.str (readableName stem))) := by
  have h2 := dictGet_fill_step_self
    (if (match dictGet ac "alt" with
        | some v => !valTruthy v
        | none => true) then dictSet ac "alt" (Val.str (readableName stem)) else ac)
    "caption" (Val.str (readableName stem))
  have h1 : dictGet (if (match dictGet ac "alt" with
      | some v => !valTruthy v
      | none => true) then dictSet ac "alt" (Val.str (readableName stem)) else ac)
      "caption" = dictGet ac "caption" :=
    dictGet_fill_step ac "alt" "caption" (Val.str (readableName stem)) (by decide)
  exact h2.trans (by rw [h1])

theorem lexicalizeCaption_alt (ac : Assoc) :
    dictGet (lexicalizeCaption ac) "alt" = dictGet ac "alt" := by
  unfold lexicalizeCaption
  cases hg : dictGet ac "caption" with
  | none => rfl
  | some v =>
    cases v with
    | str s => exact dictGet_alt_of_set_caption _ _
    | natV n => rfl
    | boolV b => rfl
    | listV l => rfl
    | dictV d => rfl
    | nullV => rfl

theorem lexicalizeCaption_caption_str {ac : Assoc} {s : String}
    (h : dictGet ac "caption" = some (Val.str s)) :
    dictGet (lexicalizeCaption ac) "caption" = some (text_to_lexical s) := by
  unfold lexicalizeCaption
  rw [h]
  exact dictGet_dictSet_self _ _ _

theorem dictGet_some_ne_nil {d : Assoc} {k : String} {v : Val}
    (h : dictGet d k = some v) : d.isEmpty = false := by
  cases d with
  | nil => exact absurd h (by simp [dictGet])
  | cons kv rest => rfl

theorem splitMediaDefaults_fst_none {md : Assoc} {k : String}
    (h : dictGet md k = none) : dictGet (splitMediaDefaults md).1 k = none := by
  have hall : ∀ kv ∈ md, kv.1 ≠ k := dictGet_eq_none_iff.mp h
  have main : ∀ (l : List (String × Val)) (acc : Assoc × Assoc),
      (∀ kv ∈ l, kv.1 ≠ k) → dictGet acc.1 k = none →
      dictGet (l.foldl (fun (acc : Assoc × Assoc) kv =>
        if stringLowerAscii kv.1 == "alt" || stringLowerAscii kv.1 == "caption" then
          (acc.1, dictSet acc.2 (stringLowerAscii kv.1) kv.2)
        else (dictSet acc.1 kv.1 kv.2, acc.2)) acc).1 k = none := by
    intro l
    induction l with
    | nil => intro acc _ hacc; exact hacc
    | cons kv rest ih =>
      intro acc hl hacc
      rw [List.foldl_cons]
      apply ih _ (fun e he => hl e (List.mem_cons_of_mem _ he))
      by_cases hk : (stringLowerAscii kv.1 == "alt" ||
          stringLowerAscii kv.1 == "caption") = true
      · rw [if_pos hk]
        exact hacc
      · rw [if_neg hk]
        show dictGet (dictSet acc.1 kv.1 kv.2) k = none
        rw [dictGet_dictSet_ne _ _ _
          (fun hc => hl kv (List.mem_cons_self _ _) hc.symm)]
        exact hacc
  exact main md ([], []) hall rfl

theorem fillFallbacks_ne_nil (ac : Assoc) (stem : String) :
    (fillFallbacks ac stem).isEmpty = false := by
  have h := fillFallbacks_alt ac stem
  cases hga : dictGet ac "alt" with
  | none =>
    simp only [hga] at h
    exact dictGet_some_ne_nil h
  | some w =>
    simp only [hga] at h
    by_cases hw : valTruthy w = true
    · rw [if_pos hw] at h
      exact dictGet_some_ne_nil h
    · rw [if_neg hw] at h
      exact dictGet_some_ne_nil h

/-- C5: when the featured-image value is a non-blank string that
resolves to a file, the code reuses an existing media record found by
filename (no upload or update call, the stored id is returned);
otherwise it performs exactly one upload followed by exactly one
update carrying the alt/caption payload, in which article-payload
companion fields take priority over media defaults, which take
priority over the filename-derived fallback. -/
theorem c5_media_reuse_and_upload
    (resolve : String → Option (String × String))
    (v name stem filenameField ffield : String)
    (mediaDefaults articlePayload : Assoc) (st : St)
    (hv : (pyStrip v).isEmpty = false)
    (hres : resolve (pyStrip v) = some (name, stem))
    (hdocs : ∀ d ∈ st.docs, dictGet d "doc" = none ∧ (dictGet d "id").isSome)
    (hmd : dictGet mediaDefaults "doc" = none)
    (hff : filenameField ≠ "doc") :
    (∀ d, findBySlug st.docs filenameField (Val.str name) = some d →
      ∃ i, dictGet d "id" = some i ∧
        ensure_featured_image resolve (Val.str v) filenameField mediaDefaults
            articlePayload ffield st =
          Except.ok (i,
            { st with
                trace := st.trace ++ [Call.lookup filenameField (Val.str name)] })) ∧
    (findBySlug st.docs filenameField (Val.str name) = none →
      ∃ st3,
        ensure_featured_image resolve (Val.str v) filenameField mediaDefaults
            articlePayload ffield st =
          Except.ok (Val.natV st.nextId, st3) ∧
        st3.trace = st.trace ++
          [Call.lookup filenameField (Val.str name),
           Call.upload name (splitMediaDefaults mediaDefaults).1,
           Call.update (Val.natV st.nextId)
             (altCapFinal mediaDefaults articlePayload ffield stem)]) ∧
    (∀ w, dictGet articlePayload (ffield ++ "Alt") = some w → valTruthy w = true →
      dictGet (altCapFinal mediaDefaults articlePayload ffield stem) "alt" =
        some w) ∧
    (dictGet articlePayload (ffield ++ "Alt") = none →
      ∀ w, dictGet articlePayload (ffield ++ "alt") = some w → valTruthy w = true →
      dictGet (altCapFinal mediaDefaults articlePayload ffield stem) "alt" =
        some w) ∧
    (dictGet articlePayload (ffield ++ "Alt") = none →
      dictGet articlePayload (ffield ++ "alt") = none →
      ∀ w, dictGet (splitMediaDefaults mediaDefaults).2 "alt" = some w →
        valTruthy w = true →
      dictGet (altCapFinal mediaDefaults articlePayload ffield stem) "alt" =
        some w) ∧
    (dictGet articlePayload (ffield ++ "Alt") = none →
      dictGet articlePayload (ffield ++ "alt") = none →
      dictGet (splitMediaDefaults mediaDefaults).2 "alt" = none →
      dictGet (altCapFinal mediaDefaults articlePayload ffield stem) "alt" =
        some (Val.str (readableName stem))) ∧
    (∀ s, dictGet articlePayload (ffield ++ "Caption") = some (Val.str s) →
      s.isEmpty = false →
      dictGet (altCapFinal mediaDefaults articlePayload ffield stem) "caption" =
        some (text_to_lexical s)) ∧
    (dictGet articlePayload (ffield ++ "Caption") = none →
      dictGet articlePayload (ffield ++ "caption") = none →
      dictGet (splitMediaDefaults mediaDefaults).2 "caption" = none →
      dictGet (altCapFinal mediaDefaults articlePayload ffield stem) "caption" =
        some (text_to_lexical (readableName stem))) := by
  refine ⟨?_, ?_, ?_, ?_, ?_, ?_, ?_, ?_⟩
  · intro d hd
    obtain ⟨hdn, hids⟩ := hdocs d (List.mem_of_find?_eq_some hd)
    obtain ⟨i, hi⟩ := Option.isSome_iff_exists.mp hids
    have hun : dictGet (unwrapDoc d) "id" = some i := by
      unfold unwrapDoc
      simp only [hdn]
      exact hi
    have hfind : find_first_by_field filenameField (Val.str name) st =
        (some d,
         { st with trace := st.trace ++ [Call.lookup filenameField (Val.str name)] }) := by
      unfold find_first_by_field
      rw [show List.find? (fun x => decide (dictGet x filenameField =
        some (Val.str name))) st.docs = some d from hd]
    refine ⟨i, hi, ?_⟩
    simp only [ensure_featured_image, hv, Bool.false_eq_true, if_false, hres,
      hfind, hun]
  · intro hnone
    have hfind2 : find_first_by_field filenameField (Val.str name) st =
        (none,
         { st with trace := st.trace ++ [Call.lookup filenameField (Val.str name)] }) := by
      unfold find_first_by_field
      rw [show List.find? (fun x => decide (dictGet x filenameField =
        some (Val.str name))) st.docs = none from hnone]
    have hdu : dictGet (dictSet (dictSet (splitMediaDefaults mediaDefaults).1
        filenameField (Val.str name)) "id" (Val.natV st.nextId)) "doc" = none := by
      rw [dictGet_dictSet_ne _ _ _ (by decide),
        dictGet_dictSet_ne _ _ _ (Ne.symm hff),
        splitMediaDefaults_fst_none hmd]
    have hub : dictGet (unwrapDoc (dictSet (dictSet (splitMediaDefaults
        mediaDefaults).1 filenameField (Val.str name)) "id"
        (Val.natV st.nextId))) "id" = some (Val.natV st.nextId) := by
      unfold unwrapDoc
      simp only [hdu]
      exact dictGet_dictSet_self _ _ _
    have hne := fillFallbacks_ne_nil
      (applyCompanions articlePayload ffield (splitMediaDefaults mediaDefaults).2)
      stem
    refine ⟨(update_document (Val.natV st.nextId)
        (lexicalizeCaption (fillFallbacks (applyCompanions articlePayload ffield
          (splitMediaDefaults mediaDefaults).2) stem))
        (upload_media filenameField name (splitMediaDefaults mediaDefaults).1
          { st with
              trace := st.trace ++ [Call.lookup filenameField (Val.str name)] }).2).2,
      ?_, ?_⟩
    · simp only [ensure_featured_image, hv, Bool.false_eq_true, if_false, hres,
        hfind2, upload_media, hub, hne]
    · simp only [update_document, upload_media, altCapFinal]
      simp [List.append_assoc]
  · intro w hA htr
    have h1 : dictGet (applyCompanions articlePayload ffield
        (splitMediaDefaults mediaDefaults).2) "alt" = some w := by
      rw [applyCompanions_alt]
      simp only [hA]
    have h2 : dictGet (fillFallbacks (applyCompanions articlePayload ffield
        (splitMediaDefaults mediaDefaults).2) stem) "alt" = some w := by
      rw [fillFallbacks_alt]
      simp only [h1]
      rw [if_pos htr]
    simp only [altCapFinal, lexicalizeCaption_alt]
    exact h2
  · intro hA w ha htr
    have h1 : dictGet (applyCompanions articlePayload ffield
        (splitMediaDefaults mediaDefaults).2) "alt" = some w := by
      rw [applyCompanions_alt]
      simp only [hA, ha]
    have h2 : dictGet (fillFallbacks (applyCompanions articlePayload ffield
        (splitMediaDefaults mediaDefaults).2) stem) "alt" = some w := by
      rw [fillFallbacks_alt]
      simp only [h1]
      rw [if_pos htr]
    simp only [altCapFinal, lexicalizeCaption_alt]
    exact h2
  · intro hA ha w hdef htr
    have h1 : dictGet (applyCompanions articlePayload ffield
        (splitMediaDefaults mediaDefaults).2) "alt" = some w := by
      rw [applyCompanions_alt]
      simp only [hA, ha]
      exact hdef
    have h2 : dictGet (fillFallbacks (applyCompanions articlePayload ffield
        (splitMediaDefaults mediaDefaults).2) stem) "alt" = some w := by
      rw [fillFallbacks_alt]
      simp only [h1]
      rw [if_pos htr]
    simp only [altCapFinal, lexicalizeCaption_alt]
    exact h2
  · intro hA ha hdef
    have h1 : dictGet (applyCompanions articlePayload ffield
        (splitMediaDefaults mediaDefaults).2) "alt" = none := by
      rw [applyCompanions_alt]
      simp only [hA, ha]
      exact hdef
    have h2 : dictGet (fillFallbacks (applyCompanions articlePayload ffield
        (splitMediaDefaults mediaDefaults).2) stem) "alt" =
        some (Val.str (readableName stem)) := by
      rw [fillFallbacks_alt]
      simp only [h1]
    simp only [altCapFinal, lexicalizeCaption_alt]
    exact h2
  · intro s hC hs
    have h1 : dictGet (applyCompanions articlePayload ffield
        (splitMediaDefaults mediaDefaults).2) "caption" = some (Val.str s) := by
      rw [applyCompanions_caption]
      simp only [hC]
    have htr : valTruthy (Val.str s) = true := by
      simp only [valTruthy, hs, Bool.not_false]
    have h2 : dictGet (fillFallbacks (applyCompanions articlePayload ffield
        (splitMediaDefaults mediaDefaults).2) stem) "caption" =
        some (Val.str s) := by
      rw [fillFallbacks_caption]
      simp only [h1]
      rw [if_pos htr]
    simp only [altCapFinal]
    exact lexicalizeCaption_caption_str h2
  · intro hC hc hdef
    have h1 : dictGet (applyCompanions articlePayload ffield
        (splitMediaDefaults mediaDefaults).2) "caption" = none := by
      rw [applyCompanions_caption]
      simp only [hC, hc]
      exact hdef
    have h2 : dictGet (fillFallbacks (applyCompanions articlePayload ffield
        (splitMediaDefaults mediaDefaults).2) stem) "caption" =
        some (Val.str (readableName stem)) := by
      rw [fillFallbacks_caption]
      simp only [h1]
    simp only [altCapFinal]
    exact lexicalizeCaption_caption_str h2

theorem c5_witness :
    (pyStrip "pic.webp").isEmpty = false ∧
    (∃ st3,
      ensure_featured_image (fun _ => some ("pic.webp", "pic"))
          (Val.str "pic.webp") "filename" [("alt", Val.str "Local culture")]
          [("featuredImageCaption", Val.str "Nice")] "featuredImage"
          ⟨[], 1, []⟩ =
        Except.ok (Val.natV 1, st3) ∧
      st3.trace =
        [Call.lookup "filename" (Val.str "pic.webp"),
         Call.upload "pic.webp"
           (splitMediaDefaults [("alt", Val.str "Local culture")]).1,
         Call.update (Val.natV 1)
           (altCapFinal [("alt", Val.str "Local culture")]
             [("featuredImageCaption", Val.str "Nice")] "featuredImage" "pic")]) := by
  refine ⟨by decide, ?_⟩
  have h := c5_media_reuse_and_upload (fun _ => some ("pic.webp", "pic"))
    "pic.webp" "pic.webp" "pic" "filename" "featuredImage"
    [("alt", Val.str "Local culture")] [("featuredImageCaption", Val.str "Nice")]
    ⟨[], 1, []⟩ (by decide) rfl
    (fun d hd => absurd hd (List.not_mem_nil d)) (by decide) (by decide)
  obtain ⟨st3, he, ht⟩ := h.2.1 rfl
  exact ⟨st3, he, by rw [ht]; rfl⟩

/-! ## Companion-field stripping (articles.py upload_article_from_file,
featured-image section) -/

theorem dictDel_find? (d : Assoc) (k q : String) (hne : q ≠ k) :
    List.find? (fun kv => kv.1 == q) (List.filter (fun kv => kv.1 != k) d) =
      List.find? (fun kv => kv.1 == q) d := by
  induction d with
  | nil => rfl
  | cons kv rest ih =>
    rw [List.filter_cons]
    by_cases h2 : (kv.1 != k) = true
    · rw [if_pos h2]
      by_cases h1 : (kv.1 == q) = true
      · rw [List.find?_cons_of_pos (p := fun kv : String × Val => kv.1 == q) _ h1,
          List.find?_cons_of_pos (p := fun kv : String × Val => kv.1 == q) _ h1]
      · rw [List.find?_cons_of_neg (p := fun kv : String × Val => kv.1 == q) _ (by simpa using h1),
          List.find?_cons_of_neg (p := fun kv : String × Val => kv.1 == q) _ (by simpa using h1)]
        exact ih
    · rw [if_neg h2]
      have hk : kv.1 = k := by simpa using h2
      have h1 : ¬((kv.1 == q) = true) := by
        intro hq
        exact hne ((eq_of_beq hq).symm.trans hk)
      rw [List.find?_cons_of_neg (p := fun kv : String × Val => kv.1 == q) _ h1]
      exact ih

theorem dictGet_dictDel_ne (d : Assoc) (k : String) {q : String} (hne : q ≠ k) :
    dictGet (dictDel d k) q = dictGet d q := by
  unfold dictGet dictDel
  rw [dictDel_find? d k q hne]

theorem dictGet_dictDel_self (d : Assoc) (k : String) :
    dictGet (dictDel d k) k = none := by
  have h : List.find? (fun kv => kv.1 == k)
      (List.filter (fun kv => kv.1 != k) d) = none := by
    rw [List.find?_eq_none]
    intro x hx
    have hx2 := (List.mem_filter.mp hx).2
    simp only [bne_iff_ne, ne_eq] at hx2
    simp [hx2]
  unfold dictGet dictDel
  rw [h]
  rfl

theorem dictGet_dictDel_none {d : Assoc} (k : String) {q : String}
    (h : dictGet d q = none) : dictGet (dictDel d k) q = none := by
  by_cases hq : q = k
  · rw [hq]
    exact dictGet_dictDel_self d k
  · rw [dictGet_dictDel_ne d k hq]
    exact h

theorem string_append_ne_self (s t : String) (ht : t.length ≠ 0) : s ++ t ≠ s := by
  intro h
  have h2 := congrArg String.length h
  rw [String.length_append] at h2
  omega

/-- articles.py upload_article_from_file lines 522-548: when the
featured-image field name is truthy and present in the payload, the
code resolves the media document, deletes the four companion keys
from the article payload, and writes the media id under the output
field (removing the input field when the output field differs); when
the field name is falsy or the key is absent the whole section is
skipped and the payload passes through unchanged. -/
def featuredImageSection (resolve : String → Option (String × String))
    (ffield outField filenameField : String) (mediaDefaults : Assoc)
    (payload : Assoc) (st : St) : Except String (Assoc × St) :=
  if ffield.isEmpty then Except.ok (payload, st)
  else
    match dictGet payload ffield with
    | none => Except.ok (payload, st)
    | some fv =>
      match ensure_featured_image resolve fv filenameField mediaDefaults payload
        ffield st with
      | Except.error e => Except.error e
      | Except.ok (mediaId, st1) =>
        let stripped := companionSuffixes.foldl
          (fun p suffix => dictDel p (ffield ++ suffix)) payload
        if !outField.isEmpty && outField != ffield then
          Except.ok (dictSet (dictDel stripped ffield) outField mediaId, st1)
        else
          Except.ok (dictSet stripped ffield mediaId, st1)

/-- Counterexample to C6 as stated: when the featured-image key is
absent from the payload the whole featured-image section is skipped,
so a companion key such as featuredImageAlt survives in the article
payload instead of being stripped. -/
theorem c6_counterexample :
    featuredImageSection (fun _ => none) "featuredImage" "" "filename" []
        [("featuredImageAlt", Val.str "x"), ("title", Val.str "t")] ⟨[], 1, []⟩ =
      Except.ok ([("featuredImageAlt", Val.str "x"), ("title", Val.str "t")],
        ⟨[], 1, []⟩) ∧
    dictGet [("featuredImageAlt", Val.str "x"), ("title", Val.str "t")]
      ("featuredImage" ++ "Alt") = some (Val.str "x") := by
  exact ⟨rfl, rfl⟩

/-- C6 (amended): companion keys are stripped only when the
featured-image key IS present in the payload (even when resolution is
skipped because the value is blank); under that guard, a successful
run removes all four companion keys from the resulting payload, and
every key other than the featured-image field, the output field and
the companion keys keeps its original value. -/
theorem c6_companions_amended
    (resolve : String → Option (String × String))
    (ffield outField filenameField : String) (mediaDefaults payload : Assoc)
    (st : St) (res : Assoc) (st1 : St)
    (hff : ffield.isEmpty = false)
    (hpres : (dictGet payload ffield).isSome = true)
    (houtf : ∀ suffix ∈ companionSuffixes, outField ≠ ffield ++ suffix)
    (hok : featuredImageSection resolve ffield outField filenameField
      mediaDefaults payload st = Except.ok (res, st1)) :
    (∀ suffix ∈ companionSuffixes, dictGet res (ffield ++ suffix) = none) ∧
    (∀ k, k ≠ ffield → k ≠ outField →
      (∀ suffix ∈ companionSuffixes, k ≠ ffield ++ suffix) →
      dictGet res k = dictGet payload k) := by
  obtain ⟨fv, hfv⟩ := Option.isSome_iff_exists.mp hpres
  simp only [featuredImageSection, hff, Bool.false_eq_true, if_false, hfv] at hok
  cases heq : ensure_featured_image resolve fv filenameField mediaDefaults
      payload ffield st with
  | error e =>
    simp only [heq] at hok
    exact Except.noConfusion hok
  | ok pr =>
    obtain ⟨mediaId, stx⟩ := pr
    simp only [heq] at hok
    have hstr_eq : companionSuffixes.foldl
        (fun p suffix => dictDel p (ffield ++ suffix)) payload =
        dictDel (dictDel (dictDel (dictDel payload (ffield ++ "alt"))
          (ffield ++ "caption")) (ffield ++ "Alt")) (ffield ++ "Caption") := rfl
    have hs1 : ∀ suffix ∈ companionSuffixes,
        dictGet (companionSuffixes.foldl
          (fun p suffix => dictDel p (ffield ++ suffix)) payload)
          (ffield ++ suffix) = none := by
      intro suffix hsuf
      rw [hstr_eq]
      simp only [companionSuffixes, List.mem_cons, List.not_mem_nil,
        or_false] at hsuf
      rcases hsuf with h | h | h | h <;> subst h
      · exact dictGet_dictDel_none _ (dictGet_dictDel_none _
          (dictGet_dictDel_none _ (dictGet_dictDel_self payload _)))
      · exact dictGet_dictDel_none _ (dictGet_dictDel_none _
          (dictGet_dictDel_self _ _))
      · exact dictGet_dictDel_none _ (dictGet_dictDel_self _ _)
      · exact dictGet_dictDel_self _ _
    have hs2 : ∀ k, (∀ suffix ∈ companionSuffixes, k ≠ ffield ++ suffix) →
        dictGet (companionSuffixes.foldl
          (fun p suffix => dictDel p (ffield ++ suffix)) payload) k =
          dictGet payload k := by
      intro k hk
      rw [hstr_eq,
        dictGet_dictDel_ne _ _ (hk "Caption" (by decide)),
        dictGet_dictDel_ne _ _ (hk "Alt" (by decide)),
        dictGet_dictDel_ne _ _ (hk "caption" (by decide)),
        dictGet_dictDel_ne _ _ (hk "alt" (by decide))]
    by_cases hcond : (!outField.isEmpty && (outField != ffield)) = true
    · rw [if_pos hcond] at hok
      injection hok with h1
      injection h1 with h2 h3
      subst h2
      constructor
      · intro suffix hsuf
        rw [dictGet_dictSet_ne _ _ _ (fun hc => houtf suffix hsuf hc.symm)]
        exact dictGet_dictDel_none ffield (hs1 suffix hsuf)
      · intro k hk1 hk2 hk3
        rw [dictGet_dictSet_ne _ _ _ hk2, dictGet_dictDel_ne _ _ hk1,
          hs2 k hk3]
    · rw [if_neg hcond] at hok
      injection hok with h1
      injection h1 with h2 h3
      subst h2
      constructor
      · intro suffix hsuf
        have hlen : suffix.length ≠ 0 := by
          simp only [companionSuffixes, List.mem_cons, List.not_mem_nil,
            or_false] at hsuf
          rcases hsuf with h | h | h | h <;> subst h <;> decide
        rw [dictGet_dictSet_ne _ _ _ (string_append_ne_self ffield suffix hlen)]
        exact hs1 suffix hsuf
      · intro k hk1 hk2 hk3
        rw [dictGet_dictSet_ne _ _ _ hk1, hs2 k hk3]

theorem c6_amended_witness :
    ("featuredImage" : String).isEmpty = false ∧
    (dictGet [("featuredImage", Val.str ""), ("featuredImageAlt", Val.str "x"),
      ("title", Val.str "t")] "featuredImage").isSome = true ∧
    dictGet [("featuredImage", Val.str ""), ("title", Val.str "t")]
      ("featuredImage" ++ "Alt") = none ∧
    dictGet [("featuredImage", Val.str ""), ("title", Val.str "t")] "title" =
      dictGet [("featuredImage", Val.str ""), ("featuredImageAlt", Val.str "x"),
        ("title", Val.str "t")] "title" := by
  have h := c6_companions_amended (fun _ => none) "featuredImage" "" "filename"
    [] [("featuredImage", Val.str ""), ("featuredImageAlt", Val.str "x"),
      ("title", Val.str "t")] ⟨[], 1, []⟩
    [("featuredImage", Val.str ""), ("title", Val.str "t")] ⟨[], 1, []⟩
    rfl rfl (by decide) rfl
  exact ⟨rfl, rfl, h.1 "Alt" (by decide),
    h.2 "title" (by decide) (by decide) (by decide)⟩

/-! ## Front-matter parsing (file_parser.py parse_article_file)

The YAML loader is external; it enters as the yamlLoad parameter
returning a structured value or a parse error. The front-matter
pattern is the regex matched with re.match and DOTALL: three dashes, a
whitespace run containing a newline (the match consumes up to its last
newline, backtracking to earlier newlines when no closing delimiter
follows), a lazily matched metadata group, then a newline, three
dashes, a whitespace run up to its last newline, and the body running
to the end. -/

inductive Yaml where
  | ymap : List (String × Yaml) → Yaml
  | ylist : List Yaml → Yaml
  | ystr : String → Yaml
  | yint : Int → Yaml
  | ybool : Bool → Yaml
  | ynull : Yaml

/-- Python truthiness of a loaded YAML value, as used by `or {}`. -/
def yamlFalsy : Yaml → Bool
  | .ymap m => m.isEmpty
  | .ylist l => l.isEmpty
  | .ystr s => s.isEmpty
  | .yint n => n == 0
  | .ybool b => !b
  | .ynull => true

def isYamlMap : Yaml → Bool
  | .ymap _ => true
  | _ => false

/-- text.lstrip of the byte-order mark. -/
def stripBom (s : String) : String :=
  String.mk (s.data.dropWhile (fun c => c.toNat == 0xFEFF))

/-- Indices of newline characters inside a whitespace run. -/
def nlIndices (ws : List Char) : List Nat :=
  (List.range ws.length).filter (fun i => decide (ws.getD i ' ' = '\n'))

/-- Close-delimiter tail: three dashes followed by a whitespace run
holding a newline; the body is everything after the last newline of
the run. -/
def closeAt (l : List Char) : Option (List Char) :=
  match l with
  | '-' :: '-' :: '-' :: rest =>
    (match (nlIndices (rest.takeWhile isPySpace)).reverse with
     | i :: _ => some (rest.drop (i + 1))
     | [] => none)
  | _ => none

/-- Lazy search for the closing delimiter: the metadata group grows
one character at a time until a newline starts a close delimiter. -/
def findClose : List Char → Option (List Char × List Char)
  | [] => none
  | c :: rest =>
    if c = '\n' then
      match closeAt rest with
      | some body => some ([], body)
      | none => (findClose rest).map (fun mb => (c :: mb.1, mb.2))
    else (findClose rest).map (fun mb => (c :: mb.1, mb.2))

/-- Greedy choices for the opening whitespace run: continuations after
each newline of the run, latest newline first. -/
def frontChoices (rest : List Char) : List (List Char) :=
  ((nlIndices (rest.takeWhile isPySpace)).reverse).map (fun i => rest.drop (i + 1))

/-- The front-matter regex match: meta and body groups, or none. -/
def matchFrontMatter (s : String) : Option (String × String) :=
  match s.data with
  | '-' :: '-' :: '-' :: rest =>
    (frontChoices rest).findSome? (fun rest2 =>
      (findClose rest2).map (fun mb => (String.mk mb.1, String.mk mb.2)))
  | _ => none

structure ArticleDocument where
  metadata : List (String × Yaml)
  body : String
  raw : String

/-- file_parser.py parse_article_file: strip the BOM, match the
front-matter pattern, strip and YAML-load the metadata group, coerce
a falsy load result to the empty mapping, and reject non-mapping
metadata. -/
def parse_article_file (yamlLoad : String → Except String Yaml) (text : String) :
    Except String ArticleDocument :=
  match matchFrontMatter (stripBom text) with
  | none => Except.error
      "ValueError: file does not contain YAML front matter delimited by dashes"
  | some (meta, body) =>
    match yamlLoad (pyStrip meta) with
    | Except.error e =>
      Except.error ("ValueError: failed to parse YAML front matter: " ++ e)
    | Except.ok y =>
      let y2 := if yamlFalsy y then Yaml.ymap [] else y
      match y2 with
      | Yaml.ymap m => Except.ok ⟨m, body, text⟩
      | _ => Except.error "ValueError: front matter must be a YAML mapping"

/-- Counterexample to C7 as stated: a front-matter block holding a
bare empty list parses without error, because the falsy load result
is coerced to the empty mapping by `or`; the invalid-front-matter
error is not raised although the parsed result is not a mapping. -/
theorem c7_counterexample :
    parse_article_file
        (fun s => if s = "[]" then Except.ok (Yaml.ylist [])
          else Except.error "unused")
        "---\n[]\n---\nbody" =
      Except.ok ⟨[], "body", "---\n[]\n---\nbody"⟩ ∧
    (fun s => if s = "[]" then Except.ok (Yaml.ylist [])
      else Except.error "unused") (pyStrip "[]") = Except.ok (Yaml.ylist []) ∧
    isYamlMap (Yaml.ylist []) = false := by
  exact ⟨rfl, rfl, rfl⟩

/-- C7 (amended): when parsing succeeds, the front-matter delimiters
matched, and the metadata is either the content of a successfully
loaded truthy YAML mapping, or the empty mapping substituted for a
falsy load result (which need not be a mapping); in particular a
truthy non-mapping block always raises, but a falsy one does not. -/
theorem c7_front_matter_amended (yamlLoad : String → Except String Yaml)
    (text : String) (doc : ArticleDocument)
    (hok : parse_article_file yamlLoad text = Except.ok doc) :
    ∃ meta body, matchFrontMatter (stripBom text) = some (meta, body) ∧
      doc.body = body ∧ doc.raw = text ∧
      ∃ y, yamlLoad (pyStrip meta) = Except.ok y ∧
        ((yamlFalsy y = false ∧ y = Yaml.ymap doc.metadata) ∨
         (yamlFalsy y = true ∧ doc.metadata = [])) := by
  unfold parse_article_file at hok
  cases hm : matchFrontMatter (stripBom text) with
  | none =>
    simp only [hm] at hok
    exact Except.noConfusion hok
  | some mb =>
    obtain ⟨meta, body⟩ := mb
    simp only [hm] at hok
    cases hy : yamlLoad (pyStrip meta) with
    | error e =>
      simp only [hy] at hok
      exact Except.noConfusion hok
    | ok y =>
      simp only [hy] at hok
      by_cases hf : yamlFalsy y = true
      · rw [if_pos hf] at hok
        dsimp only at hok
        injection hok with h
        subst h
        exact ⟨meta, body, rfl, rfl, rfl, y, hy, Or.inr ⟨hf, rfl⟩⟩
      · have hf2 : yamlFalsy y = false := by
          revert hf
          cases yamlFalsy y <;> simp
        rw [if_neg hf] at hok
        cases y with
        | ymap m =>
          dsimp only at hok
          injection hok with h
          subst h
          exact ⟨meta, body, rfl, rfl, rfl, Yaml.ymap m, hy, Or.inl ⟨hf2, rfl⟩⟩
        | ylist l => exact Except.noConfusion hok
        | ystr s => exact Except.noConfusion hok
        | yint n => exact Except.noConfusion hok
        | ybool b => exact Except.noConfusion hok
        | ynull => exact Except.noConfusion hok

theorem c7_amended_witness :
    parse_article_file
        (fun _ => Except.ok (Yaml.ymap [("title", Yaml.ystr "T")]))
        "---\ntitle: T\n---\n<p>b</p>" =
      Except.ok ⟨[("title", Yaml.ystr "T")], "<p>b</p>",
        "---\ntitle: T\n---\n<p>b</p>"⟩ ∧
    (∃ meta body,
      matchFrontMatter (stripBom "---\ntitle: T\n---\n<p>b</p>") =
        some (meta, body) ∧
      (ArticleDocument.mk [("title", Yaml.ystr "T")] "<p>b</p>"
        "---\ntitle: T\n---\n<p>b</p>").body = body ∧
      (ArticleDocument.mk [("title", Yaml.ystr "T")] "<p>b</p>"
        "---\ntitle: T\n---\n<p>b</p>").raw = "---\ntitle: T\n---\n<p>b</p>" ∧
      ∃ y, (fun _ => Except.ok (Yaml.ymap [("title", Yaml.ystr "T")]) :
          String → Except String Yaml) (pyStrip meta) = Except.ok y ∧
        ((yamlFalsy y = false ∧
          y = Yaml.ymap (ArticleDocument.mk [("title", Yaml.ystr "T")]
            "<p>b</p>" "---\ntitle: T\n---\n<p>b</p>").metadata) ∨
         (yamlFalsy y = true ∧
          (ArticleDocument.mk [("title", Yaml.ystr "T")] "<p>b</p>"
            "---\ntitle: T\n---\n<p>b</p>").metadata = []))) := by
  refine ⟨rfl, ?_⟩
  exact c7_front_matter_amended
    (fun _ => Except.ok (Yaml.ymap [("title", Yaml.ystr "T")]))
    "---\ntitle: T\n---\n<p>b</p>"
    ⟨[("title", Yaml.ystr "T")], "<p>b</p>", "---\ntitle: T\n---\n<p>b</p>"⟩ rfl

/-! ## HTML to Lexical conversion (html_to_lexical.py)

The HTMLParser tokenizer is external; the converter's handlers enter
as functions over the parser event stream. Nodes keep the fields the
claims speak about (type, heading/list tag, children, and for text
nodes the format bitmask, content and link); the constant fields
(version, indent, mode, style, detail, direction) are fixed by the
constructors in the source and are elided. -/

mutual
inductive LNode where
  | text (fmt : Nat) (content : String) (link : Option String)
  | block (ty : String) (tag : Option String) (children : LForest)
  | list (listType : String) (tag : String) (children : LForest)
inductive LForest where
  | nil
  | cons (n : LNode) (rest : LForest)
end

def snocF : LForest → LNode → LForest
  | .nil, n => .cons n .nil
  | .cons m rest, n => .cons m (snocF rest n)

/-- Appending a child to an open block or list node (the Python
append to the node's children array). -/
def addChild : LNode → LNode → LNode
  | .block ty tag cs, n => .block ty tag (snocF cs n)
  | .list lt tag cs, n => .list lt tag (snocF cs n)
  | t, _ => t

inductive HEvent where
  | startTag (tag : String) (attrs : List (String × String))
  | endTag (tag : String)
  | textData (s : String)

structure ConvState where
  rootChildren : LForest
  stack : List LNode
  textBuffer : String
  currentFormats : List String
  currentLink : Option String
  ignoringDepth : Nat

def block_tags : List (String × String) :=
  [("p", "paragraph"), ("h1", "heading"), ("h2", "heading"), ("h3", "heading"),
   ("h4", "heading"), ("h5", "heading"), ("h6", "heading"),
   ("blockquote", "quote"), ("li", "listitem")]

def list_tags : List (String × String) := [("ul", "bullet"), ("ol", "number")]

def container_tags : List String :=
  ["div", "section", "article", "main", "aside", "nav", "header", "footer"]

def ignore_tags : List String := ["script", "style", "iframe"]

/-- tag.startswith of the single character h. -/
def startsWithH (tag : String) : Bool :=
  match tag.data with
  | 'h' :: _ => true
  | _ => false

/-- The format bitmask of _create_text_node: bold contributes 1,
italic 2, code 16; the bits are disjoint so the ORs add. -/
def formatOf (fmts : List String) : Nat :=
  (if fmts.contains "bold" then 1 else 0) +
    (if fmts.contains "italic" then 2 else 0) +
    (if fmts.contains "code" then 16 else 0)

/-- A falsy (empty-string) current link leaves the node a plain text
node. -/
def linkOf : Option String → Option String
  | some l => if l.isEmpty then none else some l
  | none => none

/-- _flush_text: strip the buffer; a nonempty result becomes a text
node attached to the innermost open node, or wrapped in a fresh
paragraph at the root. -/
def flush_text (st : ConvState) : ConvState :=
  if st.textBuffer.isEmpty then st
  else
    let text := pyStrip st.textBuffer
    if text.isEmpty then { st with textBuffer := "" }
    else
      let tn := LNode.text (formatOf st.currentFormats) text (linkOf st.currentLink)
      match st.stack with
      | top :: rest => { st with stack := addChild top tn :: rest, textBuffer := "" }
      | [] =>
        { st with
            rootChildren := snocF st.rootChildren
              (LNode.block "paragraph" none (.cons tn .nil)),
            textBuffer := "" }

def handle_starttag (tag : String) (attrs : List (String × String))
    (st : ConvState) : ConvState :=
  if st.ignoringDepth > 0 then { st with ignoringDepth := st.ignoringDepth + 1 }
  else if ignore_tags.contains tag then { st with ignoringDepth := 1 }
  else
    let st1 := flush_text st
    if container_tags.contains tag then st1
    else
      match block_tags.lookup tag with
      | some ty =>
        { st1 with stack :=
            LNode.block ty (if startsWithH tag then some tag else none) .nil ::
              st1.stack }
      | none =>
        match list_tags.lookup tag with
        | some lt => { st1 with stack := LNode.list lt tag .nil :: st1.stack }
        | none =>
          if tag = "strong" ∨ tag = "b" then
            { st1 with currentFormats := st1.currentFormats ++ ["bold"] }
          else if tag = "em" ∨ tag = "i" then
            { st1 with currentFormats := st1.currentFormats ++ ["italic"] }
          else if tag = "code" then
            { st1 with currentFormats := st1.currentFormats ++ ["code"] }
          else if tag = "a" then
            match attrs.find? (fun kv => kv.1 == "href") with
            | some kv => { st1 with currentLink := some kv.2 }
            | none => st1
          else st1

/-- Closing the innermost open node: the finished node joins its
parent's children, or the root list when nothing remains open (the
Python links nodes into their parent when they open; attaching the
finished node when it closes yields the same tree). -/
def popNode (st : ConvState) : ConvState :=
  match st.stack with
  | [] => st
  | top :: rest =>
    match rest with
    | [] => { st with stack := [], rootChildren := snocF st.rootChildren top }
    | parent :: rest2 => { st with stack := addChild parent top :: rest2 }

def handle_endtag (tag : String) (st : ConvState) : ConvState :=
  if st.ignoringDepth > 0 then { st with ignoringDepth := st.ignoringDepth - 1 }
  else
    let st1 := flush_text st
    if container_tags.contains tag then st1
    else if (block_tags.lookup tag).isSome || (list_tags.lookup tag).isSome then
      popNode st1
    else if tag = "strong" ∨ tag = "b" then
      { st1 with currentFormats := st1.currentFormats.erase "bold" }
    else if tag = "em" ∨ tag = "i" then
      { st1 with currentFormats := st1.currentFormats.erase "italic" }
    else if tag = "code" then
      { st1 with currentFormats := st1.currentFormats.erase "code" }
    else if tag = "a" then { st1 with currentLink := none }
    else st1

def handle_data (data : String) (st : ConvState) : ConvState :=
  if st.ignoringDepth > 0 then st
  else if (pyStrip data).isEmpty then st
  else { st with textBuffer := st.textBuffer ++ data }

def handle_event : HEvent → ConvState → ConvState
  | .startTag tag attrs, st => handle_starttag tag attrs st
  | .endTag tag, st => handle_endtag tag st
  | .textData s, st => handle_data s st

/-- The snapshot of root_children when open nodes remain: each open
node already sits (with its children so far) inside its parent, the
outermost inside the root list, where it is the newest entry. -/
def collapseStack (root : LForest) : List LNode → LForest
  | [] => root
  | top :: rest =>
    snocF root (rest.foldl (fun child parent => addChild parent child) top)

mutual
/-- _clean_empty_nodes: drop block and list nodes whose cleaned
children are empty; text nodes are always kept. -/
def cleanForest : LForest → LForest
  | .nil => .nil
  | .cons n rest =>
    match n with
    | .text fmt s l => .cons (.text fmt s l) (cleanForest rest)
    | .block ty tag cs =>
      (match cleanForest cs with
       | .nil => cleanForest rest
       | .cons c cs2 => .cons (.block ty tag (.cons c cs2)) (cleanForest rest))
    | .list lt tag cs =>
      (match cleanForest cs with
       | .nil => cleanForest rest
       | .cons c cs2 => .cons (.list lt tag (.cons c cs2)) (cleanForest rest))
end

def get_lexical_structure (st : ConvState) : LForest :=
  let st2 := flush_text st
  cleanForest (collapseStack st2.rootChildren st2.stack)

def html_to_lexical (events : List HEvent) : LForest :=
  get_lexical_structure
    (List.foldl (fun st e => handle_event e st) ⟨.nil, [], "", [], none, 0⟩ events)

/-- C9: the flushed-text format bitmask only ever uses the bits
bold=1, italic=2 and code=16 (so it always lies in the eight values
their combinations span), and converting
p(Hello space)(strong)(world)(/strong)(/p) yields one paragraph with
two text children, the second carrying bitmask 1 and text world. -/
theorem c9_format_bitmask_and_example :
    (∀ fmts : List String,
      formatOf fmts ∈ [0, 1, 2, 3, 16, 17, 18, 19]) ∧
    html_to_lexical
      [HEvent.startTag "p" [], HEvent.textData "Hello ",
       HEvent.startTag "strong" [], HEvent.textData "world",
       HEvent.endTag "strong", HEvent.endTag "p"] =
      .cons (LNode.block "paragraph" none
        (.cons (LNode.text 0 "Hello" none)
          (.cons (LNode.text 1 "world" none) .nil))) .nil := by
  constructor
  · intro fmts
    unfold formatOf
    by_cases hb : "bold" ∈ fmts <;> by_cases hi : "italic" ∈ fmts <;>
      by_cases hc : "code" ∈ fmts <;> simp [hb, hi, hc]
  · rfl

end PayloadCms

